import Mathlib

/-!
# chancyboxes-backend: request handlers and admin token check

A shallow embedding of the serverless handlers of the repository

* `lib/auth.js`                    (`hmac`, `issueAdminToken`, `requireAdmin`)
* `lib/stripe.js`                  (`stripeClient`)
* `api/create-payment-intent.js`   (`CreatePaymentIntent.handler`)
* `api/admin-set-price.js`         (`AdminSetPrice.handler`)

together with the fragment of the JavaScript language semantics they rely on
(`String(x)`, `Number(x)`, `new Set`, `split`, string comparison, `Math.round`,
`Buffer.from`, `crypto.timingSafeEqual`).

Modelling conventions.

* A JavaScript string is the list of its UTF-16 code units (`JSStr`).
* A JavaScript number (`JSNum`) is a binary64 value: `NaN`, `±Infinity`, `-0`, or a
  finite value carried as the rational it denotes, together with the check that this
  rational is a binary64 value.  Every arithmetic result, and every number read from a
  numeral, is the exact result rounded to the nearest binary64 value, ties to the even
  significand, with gradual underflow and overflow to `±Infinity` (`roundBinary64`).
* Effects (database reads and writes, the payment processor) are replaced by the
  replies of an explicit `World`, and every handler returns the list of the
  calls it made next to its response.
* `Date.now()` is an explicit argument `now`, an integer number of milliseconds, read
  as the number `JSNum.ofRat now`.
-/

namespace ChancyBoxes

/-! ## Strings -/

/-- A JavaScript string: its sequence of UTF-16 code units. -/
abbrev JSStr := List Nat

/-- The JavaScript string denoted by a literal (astral characters become surrogate pairs). -/
def js (s : String) : JSStr :=
  s.data.flatMap fun c =>
    if c.toNat < 0x10000 then [c.toNat]
    else [0xD800 + (c.toNat - 0x10000) / 0x400, 0xDC00 + (c.toNat - 0x10000) % 0x400]

namespace JS

/-- Relational `a < b` on strings: lexicographic on code units. -/
def strLt : JSStr → JSStr → Bool
  | _, [] => false
  | [], _ :: _ => true
  | a :: as, b :: bs => if a < b then true else if b < a then false else strLt as bs

/-- Relational `a >= b` on strings, which is `!(a < b)`. -/
def strGe (a b : JSStr) : Bool := !strLt a b

/-- Relational `a <= b` on strings, which is `!(b < a)`. -/
def strLe (a b : JSStr) : Bool := !strLt b a

/-- The method `String.prototype.startsWith`. -/
def startsWith (s pre : JSStr) : Bool := pre.isPrefixOf s

/-- The call `s.slice(k)` for a non-negative `k`. -/
def slice (s : JSStr) (k : Nat) : JSStr := s.drop k

/-- The call `s.split(sep)` for a one-unit separator: the separated fields, at least one. -/
def split (sep : Nat) : JSStr → List JSStr
  | [] => [[]]
  | c :: cs =>
    if c = sep then [] :: split sep cs
    else match split sep cs with
      | f :: fs => (c :: f) :: fs
      | [] => [[c]]

/-- The call `xs.join(sep)` on an array of strings. -/
def join (sep : JSStr) : List JSStr → JSStr
  | [] => []
  | [x] => x
  | x :: y :: r => x ++ sep ++ join sep (y :: r)

/-- Insertion into a `Set` of strings, kept in insertion order. -/
def setAdd (s : List JSStr) (x : JSStr) : List JSStr :=
  if x ∈ s then s else s ++ [x]

/-- The expression `[...new Set(xs)]`: the distinct elements in order of first occurrence. -/
def newSet (xs : List JSStr) : List JSStr := xs.foldl setAdd []

/-! ## Numbers -/

/-- The power `2^k` of an integer exponent `k`. -/
def pow2 (k : Int) : ℚ :=
  if 0 ≤ k then ((2 ^ k.toNat : Nat) : ℚ) else 1 / ((2 ^ (-k).toNat : Nat) : ℚ)

/-- A number `k` with `n < 2^(2^k)`, searched upwards from `k`. -/
def bitsBound (n : Nat) : Nat → Nat → Nat
  | 0, k => k
  | fuel + 1, k => if n < 2 ^ 2 ^ k then k else bitsBound n fuel (k + 1)

/-- Binary search for the largest `l` with `2^l ≤ n`, between `lo` and `lo + 2^k`. -/
def log2Search (n : Nat) : Nat → Nat → Nat
  | 0, lo => lo
  | k + 1, lo =>
    if 2 ^ (lo + 2 ^ k) ≤ n then log2Search n k (lo + 2 ^ k) else log2Search n k lo

/-- The natural number `l` with `2^l ≤ n < 2^(l+1)`, for a positive `n`. -/
def log2 (n : Nat) : Nat := log2Search n (bitsBound n n 0) 0

/-- The integer `l` with `2^l ≤ a < 2^(l+1)`, for a positive rational `a`. -/
def floorLog2 (a : ℚ) : Int :=
  let l : Int := (log2 a.num.natAbs : Int) - (log2 a.den : Int)
  if pow2 l ≤ a then l else l - 1

/-- The integer nearest to `y`, the even one of the two when `y` lies half way. -/
def roundHalfEven (y : ℚ) : Int :=
  if y - ⌊y⌋ < 1 / 2 then ⌊y⌋
  else if 1 / 2 < y - ⌊y⌋ then ⌊y⌋ + 1
  else if ⌊y⌋ % 2 = 0 then ⌊y⌋ else ⌊y⌋ + 1

/-- A number before the check that its finite value is a binary64 value: `NaN`,
`±Infinity`, `-0`, or a finite rational (`+0` is `fin 0`). -/
inductive RawNum where
  | nan
  | inf (neg : Bool)
  | negZero
  | fin (q : ℚ)
  deriving DecidableEq

/-- The binary64 value nearest to the exact result `x`, ties to the even significand:
the significand has 53 bits, the exponent of its last bit is at least `-1074`, and a
rounded magnitude of `2^1024` or more is `±Infinity`.  A zero result takes the sign of
`x`, and an exact zero the sign given by `negative`. -/
def roundBinary64 (negative : Bool) (x : ℚ) : RawNum :=
  if x = 0 then (if negative then .negZero else .fin 0)
  else
    let e := max (-1074) (floorLog2 |x| - 52)
    let r := (roundHalfEven (|x| / pow2 e) : ℚ) * pow2 e
    if pow2 1024 ≤ r then .inf (decide (x < 0))
    else if r = 0 then (if x < 0 then .negZero else .fin 0)
    else .fin (if x < 0 then -r else r)

/-- Whether a raw number is a binary64 value: a finite one is, when rounding leaves it
unchanged. -/
def RawNum.isBinary64 : RawNum → Bool
  | .fin q => roundBinary64 false q == .fin q
  | _ => true

/-- A JavaScript number: a binary64 value. -/
structure JSNum where
  raw : RawNum
  isBinary64 : raw.isBinary64 = true
  deriving DecidableEq

/-- The number with the given raw value (`NaN` stands in for a raw value that is not
binary64; no operation below produces one, see `roundBinary64_isBinary64`). -/
def JSNum.ofRaw (r : RawNum) : JSNum :=
  if h : r.isBinary64 = true then ⟨r, h⟩ else ⟨.nan, rfl⟩

/-- The number for the exact result `x`, rounded to binary64. -/
def JSNum.nearest (negative : Bool) (x : ℚ) : JSNum := .ofRaw (roundBinary64 negative x)

/-- The number denoted by the literal or exact value `q`, rounded to binary64. -/
def JSNum.ofRat (q : ℚ) : JSNum := .nearest false q

/-- The number `NaN`. -/
def JSNum.nan : JSNum := ⟨.nan, rfl⟩

/-- The numbers `Infinity` and `-Infinity`. -/
def JSNum.inf (neg : Bool) : JSNum := ⟨.inf neg, rfl⟩

/-- The number `-0`. -/
def JSNum.negZero : JSNum := ⟨.negZero, rfl⟩

/-- The value of a finite raw number. -/
def RawNum.value : RawNum → ℚ
  | .fin q => q
  | _ => 0

/-- The sign bit of a raw number that is not `NaN`. -/
def RawNum.negative : RawNum → Bool
  | .nan => false
  | .inf s => s
  | .negZero => true
  | .fin q => decide (q < 0)

/-- Unary minus. -/
def JSNum.neg (a : JSNum) : JSNum :=
  match a.raw with
  | .nan => .nan
  | .inf s => .inf (!s)
  | .negZero => .ofRat 0
  | .fin q => .nearest true (-q)

/-- The operator `a * b`. -/
def JSNum.mul (a b : JSNum) : JSNum :=
  match a.raw, b.raw with
  | .nan, _ => .nan
  | _, .nan => .nan
  | .inf s, .inf t => .inf (s != t)
  | .inf s, y => if y.value = 0 then .nan else .inf (s != y.negative)
  | x, .inf t => if x.value = 0 then .nan else .inf (x.negative != t)
  | x, y => .nearest (x.negative != y.negative) (x.value * y.value)

/-- The operator `a - b`. -/
def JSNum.sub (a b : JSNum) : JSNum :=
  match a.raw, b.raw with
  | .nan, _ => .nan
  | _, .nan => .nan
  | .inf s, .inf t => if s = t then .nan else .inf s
  | .inf s, _ => .inf s
  | _, .inf t => .inf (!t)
  | x, y => .nearest (x.negative && !y.negative) (x.value - y.value)

/-- The operator `a > b`; false as soon as one side is `NaN`. -/
def JSNum.gt (a b : JSNum) : Bool :=
  match a.raw, b.raw with
  | .nan, _ => false
  | _, .nan => false
  | .inf s, .inf t => !s && t
  | .inf s, _ => !s
  | _, .inf t => t
  | x, y => decide (y.value < x.value)

/-- The operator `a <= b`; false as soon as one side is `NaN`. -/
def JSNum.le (a b : JSNum) : Bool :=
  match a.raw, b.raw with
  | .nan, _ => false
  | _, .nan => false
  | .inf s, .inf t => s || !t
  | .inf s, _ => s
  | _, .inf t => !t
  | x, y => decide (x.value ≤ y.value)

/-- The predicate `Number.isFinite` on a number. -/
def JSNum.isFinite (a : JSNum) : Bool :=
  match a.raw with
  | .negZero => true
  | .fin _ => true
  | _ => false

/-- The function `Math.round`: the nearest integer, ties towards `+Infinity`; the result
is `-0` for `-0` and for a value from `-0.5` up to zero. -/
def Math.round (a : JSNum) : JSNum :=
  match a.raw with
  | .fin q => .nearest (decide (q < 0)) (⌊q + 1 / 2⌋ : Int)
  | _ => a

/-! ### `Number(string)` -/

/-- White space and line terminators stripped by the string-to-number conversion. -/
def isStrWhiteSpace (c : Nat) : Bool :=
  c = 9 || c = 10 || c = 11 || c = 12 || c = 13 || c = 32 || c = 0xA0 || c = 0x1680
    || (0x2000 ≤ c && c ≤ 0x200A) || c = 0x2028 || c = 0x2029 || c = 0x202F
    || c = 0x205F || c = 0x3000 || c = 0xFEFF

/-- The string without its leading and trailing white space. -/
def trim (s : JSStr) : JSStr :=
  ((s.dropWhile isStrWhiteSpace).reverse.dropWhile isStrWhiteSpace).reverse

/-- Value of a digit in a radix up to sixteen, `none` for any other code unit. -/
def digitValue (c : Nat) : Option Nat :=
  if 48 ≤ c ∧ c ≤ 57 then some (c - 48)
  else if 97 ≤ c ∧ c ≤ 102 then some (c - 87)
  else if 65 ≤ c ∧ c ≤ 70 then some (c - 55)
  else none

/-- Digits of `s` read in `radix` on top of the value `acc`; `none` at a non-digit. -/
def readDigits (radix : Nat) : Nat → JSStr → Option Nat
  | acc, [] => some acc
  | acc, c :: cs =>
    match digitValue c with
    | some d => if d < radix then readDigits radix (radix * acc + d) cs else none
    | none => none

/-- A non-empty run of digits in `radix`. -/
def readNat (radix : Nat) (s : JSStr) : Option Nat :=
  if s = [] then none else readDigits radix 0 s

/-- The production `SignedInteger` of an exponent part. -/
def readSignedInteger : JSStr → Option Int
  | 43 :: ds => (readNat 10 ds).map Int.ofNat
  | 45 :: ds => (readNat 10 ds).map fun n => -Int.ofNat n
  | ds => (readNat 10 ds).map Int.ofNat

/-- Mantissa `ip.fp` with `fp` absent when there is no dot; digits on one side at least. -/
def readMantissa (m : JSStr) : Option ℚ :=
  let ip := m.takeWhile (· ≠ 46)
  match m.dropWhile (· ≠ 46) with
  | [] => (readNat 10 ip).map fun (n : Nat) => (n : ℚ)
  | _ :: fp =>
    if ip = [] then (readNat 10 fp).map fun (f : Nat) => (f : ℚ) / 10 ^ fp.length
    else if fp = [] then (readNat 10 ip).map fun (n : Nat) => (n : ℚ)
    else match readNat 10 ip, readNat 10 fp with
      | some n, some f => some ((n : ℚ) + (f : ℚ) / 10 ^ fp.length)
      | _, _ => none

/-- The production `StrUnsignedDecimalLiteral`; `NaN` when `s` does not match it. -/
def readUnsignedDecimal (s : JSStr) : JSNum :=
  if s = js "Infinity" then .inf false
  else
    let isE : Nat → Bool := fun c => c = 101 || c = 69
    let m := s.takeWhile (fun c => !isE c)
    match s.dropWhile (fun c => !isE c) with
    | [] => match readMantissa m with
      | some q => .ofRat q
      | none => .nan
    | _ :: ex => match readMantissa m, readSignedInteger ex with
      | some q, some k => .ofRat (q * 10 ^ k)
      | _, _ => .nan

/-- The production `StrNumericLiteral`. -/
def readNumeric : JSStr → JSNum
  | 48 :: 120 :: ds => ((readNat 16 ds).map fun n => JSNum.ofRat n).getD .nan
  | 48 :: 88 :: ds => ((readNat 16 ds).map fun n => JSNum.ofRat n).getD .nan
  | 48 :: 111 :: ds => ((readNat 8 ds).map fun n => JSNum.ofRat n).getD .nan
  | 48 :: 79 :: ds => ((readNat 8 ds).map fun n => JSNum.ofRat n).getD .nan
  | 48 :: 98 :: ds => ((readNat 2 ds).map fun n => JSNum.ofRat n).getD .nan
  | 48 :: 66 :: ds => ((readNat 2 ds).map fun n => JSNum.ofRat n).getD .nan
  | 43 :: u => readUnsignedDecimal u
  | 45 :: u => (readUnsignedDecimal u).neg
  | u => readUnsignedDecimal u

/-- The conversion `Number(s)` of a string: `0` for blank input, `NaN` for a non-numeral. -/
def stringToNumber (s : JSStr) : JSNum :=
  if trim s = [] then .ofRat 0 else readNumeric (trim s)

/-! ### `String(number)` -/

/-- Decimal numeral of `n`, most significant digit first, written in front of `acc`. -/
def decimalDigits : Nat → Nat → JSStr → JSStr
  | 0, _, acc => acc
  | fuel + 1, n, acc =>
    if n < 10 then (48 + n) :: acc
    else decimalDigits fuel (n / 10) ((48 + n % 10) :: acc)

/-- Decimal numeral of a natural number. -/
def natToString (n : Nat) : JSStr := decimalDigits (n + 1) n []

/-- Decimal numeral of an integer. -/
def intToString : Int → JSStr
  | .ofNat n => natToString n
  | .negSucc n => 45 :: natToString (n + 1)

/-! ## Values -/

/-- A JavaScript value as it can arrive in a parsed JSON body or a database reply. -/
inductive Value where
  | undefined
  | null
  | bool (b : Bool)
  | num (n : JSNum)
  | str (s : JSStr)
  | arr (items : List Value)
  | obj (fields : List (JSStr × Value))

/-- A thrown `Error`, carried by its `message`. -/
structure Error where
  message : JSStr
  deriving DecidableEq

deriving instance DecidableEq for Except

/-- Primitives of the Node.js runtime that are taken as given. -/
structure Runtime where
  /-- HMAC-SHA256 of `crypto`: key bytes and message bytes to the digest bytes. -/
  hmacSha256 : List Nat → List Nat → List Nat
  /-- The digest has thirty-two bytes. -/
  hmacSha256_length : ∀ key msg, (hmacSha256 key msg).length = 32
  /-- Numeral of a finite number that is not an integer of magnitude at most `2^53`: the
  shortest decimal digits that read back as the number, in the format of the language. -/
  shortestNumeral : ℚ → JSStr

/-- The conversion `String(n)` of a number. -/
def numberToString (R : Runtime) (n : JSNum) : JSStr :=
  match n.raw with
  | .nan => js "NaN"
  | .inf false => js "Infinity"
  | .inf true => js "-Infinity"
  | .negZero => js "0"
  | .fin q =>
    if q.den = 1 ∧ q.num.natAbs ≤ 2 ^ 53 then intToString q.num else R.shortestNumeral q

/-- Whether a parsed object has an own property `key`. -/
def hasOwn (fields : List (JSStr × Value)) (key : JSStr) : Bool :=
  fields.any fun f => f.1 == key

/-- The error thrown when an object has no callable `toString` or `valueOf` to convert it. -/
def cannotConvert : Error := ⟨js "Cannot convert object to primitive value"⟩

mutual
/-- The conversion `String(v)`.  A parsed object converts through `Object.prototype.toString`,
unless an own `toString` property (never callable in parsed data) shadows it: then it throws. -/
def toString (R : Runtime) : Value → Except Error JSStr
  | .undefined => .ok (js "undefined")
  | .null => .ok (js "null")
  | .bool b => .ok (if b then js "true" else js "false")
  | .num n => .ok (numberToString R n)
  | .str s => .ok s
  | .arr items => joinItems R items
  | .obj fields => if hasOwn fields (js "toString") then .error cannotConvert
      else .ok (js "[object Object]")
termination_by structural v => v
/-- The call `items.join(",")` behind the conversion of an array: `null` and `undefined`
items contribute the empty string. -/
def joinItems (R : Runtime) : List Value → Except Error JSStr
  | [] => .ok []
  | v :: rest =>
    match (match v with
      | .undefined => Except.ok []
      | .null => Except.ok []
      | w => toString R w) with
    | .error e => .error e
    | .ok s =>
      match joinItems R rest with
      | .error e => .error e
      | .ok t => .ok (if rest.isEmpty then s else s ++ 44 :: t)
termination_by structural items => items
end

/-- The conversion `Number(v)`. -/
def toNumber (R : Runtime) : Value → Except Error JSNum
  | .undefined => .ok .nan
  | .null => .ok (.ofRat 0)
  | .bool b => .ok (if b then .ofRat 1 else .ofRat 0)
  | .num n => .ok n
  | .str s => .ok (stringToNumber s)
  | .arr items => (joinItems R items).map stringToNumber
  | .obj fields => if hasOwn fields (js "toString") then .error cannotConvert else .ok .nan

/-- The property `key` of `body || {}`, for a key that no built-in prototype defines:
the last entry of a parsed object under that key, `undefined` otherwise. -/
def getProp (body : Value) (key : JSStr) : Value :=
  match body with
  | .obj fields => ((fields.reverse.find? fun f => f.1 == key).map Prod.snd).getD .undefined
  | _ => .undefined

/-- The items of `v` when `Array.isArray(v)`. -/
def arrayItems : Value → Option (List Value)
  | .arr items => some items
  | _ => none

/-! ## Buffers -/

/-- The call `Buffer.from(s)`: the UTF-8 bytes of `s`, a lone surrogate becoming `U+FFFD`. -/
def bufferFrom : JSStr → List Nat
  | [] => []
  | [c] =>
    if c < 0x80 then [c]
    else if c < 0x800 then [0xC0 + c / 64, 0x80 + c % 64]
    else if 0xD800 ≤ c ∧ c ≤ 0xDFFF then [0xEF, 0xBF, 0xBD]
    else [0xE0 + c / 4096, 0x80 + c / 64 % 64, 0x80 + c % 64]
  | c :: d :: rest =>
    if c < 0x80 then c :: bufferFrom (d :: rest)
    else if c < 0x800 then (0xC0 + c / 64) :: (0x80 + c % 64) :: bufferFrom (d :: rest)
    else if 0xD800 ≤ c ∧ c ≤ 0xDBFF ∧ 0xDC00 ≤ d ∧ d ≤ 0xDFFF then
      let p := 0x10000 + (c - 0xD800) * 0x400 + (d - 0xDC00)
      (0xF0 + p / 262144) :: (0x80 + p / 4096 % 64) :: (0x80 + p / 64 % 64)
        :: (0x80 + p % 64) :: bufferFrom rest
    else if 0xD800 ≤ c ∧ c ≤ 0xDFFF then 0xEF :: 0xBF :: 0xBD :: bufferFrom (d :: rest)
    else (0xE0 + c / 4096) :: (0x80 + c / 64 % 64) :: (0x80 + c % 64) :: bufferFrom (d :: rest)

/-- The call `crypto.timingSafeEqual(a, b)`: throws unless both have the same byte length. -/
def timingSafeEqual (a b : List Nat) : Except Error Bool :=
  if a.length ≠ b.length then .error ⟨js "Input buffers must have the same byte length"⟩
  else .ok (a == b)

/-- One lower-case hexadecimal digit. -/
def hexDigit (n : Nat) : Nat := if n < 10 then 48 + n else 87 + n

/-- The encoding `digest("hex")`: two lower-case hexadecimal digits for each byte. -/
def hexEncode (bytes : List Nat) : JSStr :=
  bytes.flatMap fun b => [hexDigit (b / 16 % 16), hexDigit (b % 16)]

end JS

open JS

/-! ## Requests, environment, effects -/

/-- The environment variables read by the code. -/
structure Env where
  ADMIN_PASSWORD : Option JSStr
  STRIPE_SECRET_KEY : Option JSStr

/-- The parts of an incoming request that the handlers read. -/
structure Request where
  method : JSStr
  /-- The header `req.headers["authorization"]`, when present. -/
  authorization : Option JSStr
  /-- The parsed body `req.body` (`undefined` when there is none). -/
  body : Value

/-- A JSON response body sent by one of the handlers. -/
inductive Body where
  /-- The body `{ error }`. -/
  | error (message : JSStr)
  /-- The body `{ clientSecret, priceUsd }`. -/
  | payment (clientSecret : JSStr) (priceUsd : JSNum)
  /-- The body `{ ok: true, priceUsd }`. -/
  | priceSet (priceUsd : JSNum)
  deriving DecidableEq

/-- The response `res.status(status).json(body)`. -/
structure Response where
  status : Nat
  body : Body
  deriving DecidableEq

/-- Argument of `stripe.paymentIntents.create`. -/
structure PaymentIntentParams where
  amount : JSNum
  currency : JSStr
  automatic_payment_methods_enabled : Bool
  metadata_boxes : JSStr
  metadata_price_each_usd : JSStr
  deriving DecidableEq

/-- A call to an external collaborator. -/
inductive Call where
  /-- The query `from("settings").select("value").eq("key", "price_usd").single()`. -/
  | selectPrice
  /-- The query `from("boxes").select("id,status").in("id", ids)`. -/
  | selectBoxes (ids : List JSStr)
  /-- The upsert of `{ key: "price_usd", value, updated_at }` into `settings`. -/
  | upsertPrice (value : JSNum) (updatedAt : Int)
  /-- The call `stripe.paymentIntents.create(params)`. -/
  | createPaymentIntent (params : PaymentIntentParams)
  deriving DecidableEq

/-- Reply `{ data, error }` of a database query. -/
structure Reply (α : Type) where
  data : Option α
  error : Option Error

/-- A row of `settings` as selected: its `value`. -/
structure SettingRow where
  value : Value

/-- A row of `boxes` as selected: the text columns `id` and `status`. -/
structure BoxRow where
  id : JSStr
  status : JSStr
  deriving DecidableEq

/-- The payment intent returned by the processor, as far as the handler reads it. -/
structure PaymentIntent where
  client_secret : JSStr
  deriving DecidableEq

/-- What the external collaborators answer.  The factory `supabaseAdmin` of
`lib/supabase.js` is not part of the sources and is taken as given here. -/
structure World where
  supabaseAdmin : Except Error Unit
  selectPrice : Except Error (Reply SettingRow)
  selectBoxes : List JSStr → Except Error (Reply (List BoxRow))
  upsertPrice : JSNum → Int → Except Error (Option Error)
  createPaymentIntent : PaymentIntentParams → Except Error PaymentIntent

/-- A computation of a handler: the calls made, and a value or a thrown error. -/
structure Eff (α : Type) where
  calls : List Call
  result : Except Error α

namespace Eff

/-- The computation `m` run after the calls `cs` were made. -/
def after {α : Type} (cs : List Call) (m : Eff α) : Eff α := ⟨cs ++ m.calls, m.result⟩

/-- Sequencing: the second part runs only when the first did not throw. -/
def bind {α β : Type} (m : Eff α) (f : α → Eff β) : Eff β :=
  match m.result with
  | .ok a => after m.calls (f a)
  | .error e => ⟨m.calls, .error e⟩

instance : Monad Eff where
  pure a := ⟨[], .ok a⟩
  bind := Eff.bind

/-- A computation without external call. -/
def lift {α : Type} (x : Except Error α) : Eff α := ⟨[], x⟩

/-- An external call together with its reply. -/
def call {α : Type} (c : Call) (reply : Except Error α) : Eff α := ⟨[c], reply⟩

/-- The statement `try { m } catch (e) { h e }`. -/
def tryCatch {α : Type} (m : Eff α) (h : Error → Eff α) : Eff α :=
  match m.result with
  | .ok _ => m
  | .error e => after m.calls (h e)

end Eff

/-! ## `lib/auth.js` -/

/-- The function `hmac(data, secret)`: hexadecimal HMAC-SHA256 of `data` under `secret`. -/
def hmac (R : Runtime) (data secret : JSStr) : JSStr :=
  hexEncode (R.hmacSha256 (bufferFrom secret) (bufferFrom data))

/-- The function `issueAdminToken()`, called at time `now`. -/
def issueAdminToken (R : Runtime) (env : Env) (now : Int) : Except Error JSStr :=
  match env.ADMIN_PASSWORD with
  | none => .error ⟨js "Missing ADMIN_PASSWORD"⟩
  | some secret =>
    if secret = [] then .error ⟨js "Missing ADMIN_PASSWORD"⟩
    else
      let ts := numberToString R (.ofRat now)
      let sig := hmac R ts secret
      .ok (ts ++ js "." ++ sig)

/-- The local `token` of `requireAdmin`: what follows `"Bearer "` in the authorization
header, the empty string when the header is absent or does not start with it. -/
def requireAdmin.token (req : Request) : JSStr :=
  let header := req.authorization.getD []
  if startsWith header (js "Bearer ") then JS.slice header 7 else []

/-- The local `ageMs` of `requireAdmin`: `Date.now() - Number(ts)`. -/
def requireAdmin.ageMs (now : Int) (ts : JSStr) : JSNum :=
  JSNum.sub (.ofRat now) (stringToNumber ts)

/-- The function `requireAdmin(req)`, called at time `now`. -/
def requireAdmin (R : Runtime) (env : Env) (req : Request) (now : Int) : Except Error Bool :=
  match env.ADMIN_PASSWORD with
  | none => .ok false
  | some secret =>
    if secret = [] then .ok false
    else
      let token := requireAdmin.token req
      let fields := split 46 token
      let ts := fields.headD []
      match fields.tail.head? with
      | none => .ok false
      | some sig =>
        if ts = [] ∨ sig = [] then .ok false
        else
          let ageMs := requireAdmin.ageMs now ts
          if !ageMs.isFinite || ageMs.gt (.ofRat (12 * 60 * 60 * 1000)) then .ok false
          else
            let expected := hmac R ts secret
            match timingSafeEqual (bufferFrom sig) (bufferFrom expected) with
            | .ok b => .ok b
            | .error _ => .ok false

/-! ## `lib/stripe.js` -/

/-- The function `stripeClient()`: throws when the key is not configured. -/
def stripeClient (env : Env) : Except Error Unit :=
  match env.STRIPE_SECRET_KEY with
  | none => .error ⟨js "Missing STRIPE_SECRET_KEY"⟩
  | some key => if key = [] then .error ⟨js "Missing STRIPE_SECRET_KEY"⟩ else .ok ()

/-- The expression `e?.message || "Server error"` of the `catch` clauses. -/
def serverError (e : Error) : Response :=
  ⟨500, .error (if e.message = [] then js "Server error" else e.message)⟩

/-! ## `api/create-payment-intent.js` -/

namespace CreatePaymentIntent

/-- The filter predicate `b.length === 1 && b >= "A" && b <= "Z"`. -/
def isBoxId (b : JSStr) : Bool :=
  b.length == 1 && strGe b (js "A") && strLe b (js "Z")

/-- The value of `clean`: `[...new Set(boxes.map(String))].filter(...)`. -/
def clean (R : Runtime) (boxes : List Value) : Except Error (List JSStr) :=
  (boxes.mapM (JS.toString R)).map fun strings => (newSet strings).filter isBoxId

/-- The value of `amount`: `Math.round(priceUsd * 100) * clean.length`. -/
def amount (priceUsd : JSNum) (count : Nat) : JSNum :=
  (Math.round (priceUsd.mul (.ofRat 100))).mul (.ofRat count)

/-- The value of `sold`: ids of the rows whose status is `"sold"`. -/
def sold (current : List BoxRow) : List JSStr :=
  (current.filter fun x => x.status = js "sold").map fun x => x.id

/-- The default export of `api/create-payment-intent.js`.  The constructor `new Stripe(key)`
behind `stripeClient` is taken not to throw. -/
def handler (R : Runtime) (env : Env) (W : World) (req : Request) : Eff Response := do
  if req.method ≠ js "POST" then return ⟨405, .error (js "Method not allowed")⟩
  Eff.tryCatch (do
    let boxes := getProp req.body (js "boxes")
    let some boxes := arrayItems boxes
      | return ⟨400, .error (js "boxes must be a non-empty array")⟩
    if boxes.length < 1 then
      return ⟨400, .error (js "boxes must be a non-empty array")⟩

    let clean ← Eff.lift (clean R boxes)
    if clean.length < 1 then return ⟨400, .error (js "No valid boxes")⟩

    Eff.lift W.supabaseAdmin

    let ⟨setting, se⟩ ← Eff.call .selectPrice W.selectPrice
    if let some se := se then return ⟨500, .error se.message⟩

    let some setting := setting
      | Eff.lift (.error ⟨js "Cannot read properties of null (reading 'value')"⟩)
    let priceUsd ← Eff.lift (toNumber R setting.value)
    let amount := amount priceUsd clean.length

    let ⟨current, be⟩ ← Eff.call (.selectBoxes clean) (W.selectBoxes clean)
    if let some be := be then return ⟨500, .error be.message⟩

    let some current := current
      | Eff.lift (.error ⟨js "Cannot read properties of null (reading 'filter')"⟩)
    let sold := sold current
    if sold.length ≠ 0 then
      return ⟨409, .error (js "Already sold: " ++ join (js ", ") sold)⟩

    Eff.lift (stripeClient env)
    let params : PaymentIntentParams :=
      { amount := amount
        currency := js "usd"
        automatic_payment_methods_enabled := true
        metadata_boxes := join (js ",") clean
        metadata_price_each_usd := numberToString R priceUsd }
    let pi ← Eff.call (.createPaymentIntent params) (W.createPaymentIntent params)

    return ⟨200, .payment pi.client_secret priceUsd⟩)
    (fun e => pure (serverError e))

end CreatePaymentIntent

/-! ## `api/admin-set-price.js` -/

namespace AdminSetPrice

/-- The default export of `api/admin-set-price.js`: `now` is the time at which the token
is checked, `stamp` the later time `new Date()` written to `updated_at`. -/
def handler (R : Runtime) (env : Env) (W : World) (req : Request) (now stamp : Int) :
    Eff Response := do
  if req.method ≠ js "POST" then return ⟨405, .error (js "Method not allowed")⟩
  if !(← Eff.lift (requireAdmin R env req now)) then return ⟨403, .error (js "Forbidden")⟩

  let priceUsd := getProp req.body (js "priceUsd")
  let n ← Eff.lift (toNumber R priceUsd)

  if !n.isFinite || n.le (.ofRat 0) || n.gt (.ofRat 9999) then
    return ⟨400, .error (js "Invalid priceUsd")⟩

  Eff.tryCatch (do
    Eff.lift W.supabaseAdmin
    let error ← Eff.call (.upsertPrice n stamp) (W.upsertPrice n stamp)

    if let some error := error then return ⟨500, .error error.message⟩
    return ⟨200, .priceSet n⟩)
    (fun e => pure (serverError e))

end AdminSetPrice

/-! ## Concrete collaborators for evaluation -/

/-- A runtime whose digest is thirty-two zero bytes and whose fraction numeral is empty. -/
def zeroRuntime : Runtime := ⟨fun _ _ => List.replicate 32 0, by simp, fun _ => []⟩

/-- An environment with both secrets configured. -/
def sampleEnv : Env := ⟨some (js "hunter2"), some (js "sk_test")⟩

/-- A world in which every collaborator succeeds: the stored price row holds `value`, the
registry answers `rows` to every query, and the processor returns a fixed secret. -/
def pricedWorld (value : Value) (rows : List BoxRow) : World :=
  { supabaseAdmin := .ok ()
    selectPrice := .ok ⟨some ⟨value⟩, none⟩
    selectBoxes := fun _ => .ok ⟨some rows, none⟩
    upsertPrice := fun _ _ => .ok none
    createPaymentIntent := fun _ => .ok ⟨js "pi_secret"⟩ }

/-- The world `pricedWorld` whose stored price is the number `price`. -/
def sampleWorld (price : JSNum) (rows : List BoxRow) : World :=
  pricedWorld (.num price) rows

/-- A `POST` request with body `{ boxes: ids }` and no authorization header. -/
def boxesRequest (ids : List JSStr) : Request :=
  ⟨js "POST", none, .obj [(js "boxes", .arr (ids.map Value.str))]⟩

/-- A `POST` request with body `{ priceUsd }` carrying the token that `zeroRuntime`
issues at time 1000. -/
def priceRequest (priceUsd : Value) : Request :=
  ⟨js "POST", some (js
    "Bearer 1000.0000000000000000000000000000000000000000000000000000000000000000"),
    .obj [(js "priceUsd", priceUsd)]⟩

deriving instance DecidableEq for Eff

/-! ## Rounding to binary64 -/

section Rounding

open JS

theorem JS.pow2_eq (k : Int) : pow2 k = (2 : ℚ) ^ k := by
  unfold pow2
  split
  · rename_i h
    obtain ⟨n, rfl⟩ := Int.eq_ofNat_of_zero_le h
    simp
  · rename_i h
    have h' : k < 0 := not_le.mp h
    obtain ⟨n, hn⟩ := Int.eq_ofNat_of_zero_le (show 0 ≤ -k by omega)
    have hk : k = -(n : Int) := by omega
    rw [hn, hk]
    simp

theorem JS.pow2_pos (k : Int) : 0 < pow2 k := by
  rw [pow2_eq]
  positivity

theorem JS.pow2_add (a b : Int) : pow2 (a + b) = pow2 a * pow2 b := by
  simp only [pow2_eq]
  exact zpow_add₀ (by norm_num) a b

theorem JS.pow2_le_pow2 {a b : Int} (h : a ≤ b) : pow2 a ≤ pow2 b := by
  simp only [pow2_eq]
  exact zpow_le_zpow_right₀ (by norm_num) h

theorem JS.pow2_lt_pow2 {a b : Int} (h : a < b) : pow2 a < pow2 b := by
  simp only [pow2_eq]
  exact zpow_lt_zpow_right₀ (by norm_num) h

theorem JS.pow2_natCast (n : Nat) : pow2 (n : Int) = ((2 ^ n : Nat) : ℚ) := by
  simp [pow2]

theorem JS.bitsBound_spec (n : Nat) :
    ∀ fuel k, n ≤ fuel + k → n < 2 ^ 2 ^ bitsBound n fuel k := by
  intro fuel
  induction fuel with
  | zero =>
    intro k h
    simp only [bitsBound]
    calc n ≤ k := by omega
      _ < 2 ^ k := Nat.lt_two_pow k
      _ < 2 ^ 2 ^ k := Nat.lt_two_pow _
  | succ fuel ih =>
    intro k h
    simp only [bitsBound]
    split
    · assumption
    · exact ih (k + 1) (by omega)

theorem JS.log2Search_spec (n : Nat) :
    ∀ k lo, 2 ^ lo ≤ n → n < 2 ^ (lo + 2 ^ k) →
      2 ^ log2Search n k lo ≤ n ∧ n < 2 ^ (log2Search n k lo + 1) := by
  intro k
  induction k with
  | zero =>
    intro lo h1 h2
    simpa [log2Search] using ⟨h1, h2⟩
  | succ k ih =>
    intro lo h1 h2
    simp only [log2Search]
    split
    · rename_i h
      apply ih _ h
      have : lo + 2 ^ k + 2 ^ k = lo + 2 ^ (k + 1) := by rw [pow_succ]; omega
      rw [this]
      exact h2
    · rename_i h
      exact ih _ h1 (not_le.mp h)

theorem JS.log2_spec (n : Nat) (h : 0 < n) : 2 ^ log2 n ≤ n ∧ n < 2 ^ (log2 n + 1) := by
  unfold log2
  apply log2Search_spec
  · simpa using h
  · simpa using bitsBound_spec n n 0 (by omega)

theorem JS.floorLog2_spec (a : ℚ) (h : 0 < a) :
    pow2 (floorLog2 a) ≤ a ∧ a < pow2 (floorLog2 a + 1) := by
  have hn : 0 < a.num.natAbs := Int.natAbs_pos.mpr (Rat.num_ne_zero.mpr h.ne')
  have hd : 0 < a.den := a.den_pos
  obtain ⟨n1, n2⟩ := log2_spec _ hn
  obtain ⟨d1, d2⟩ := log2_spec _ hd
  have ha : a = (a.num.natAbs : ℚ) / (a.den : ℚ) := by
    have hnum : ((a.num.natAbs : Int) : ℚ) = (a.num : ℚ) := by
      rw [Int.natAbs_of_nonneg (Rat.num_nonneg.mpr h.le)]
    rw [← Int.cast_natCast, hnum]
    exact (Rat.num_div_den a).symm
  have hdq : (0 : ℚ) < (a.den : ℚ) := by exact_mod_cast hd
  have n1q : ((2 : ℚ) ^ log2 a.num.natAbs) ≤ (a.num.natAbs : ℚ) := by exact_mod_cast n1
  have n2q : (a.num.natAbs : ℚ) < (2 : ℚ) ^ (log2 a.num.natAbs + 1) := by exact_mod_cast n2
  have d1q : ((2 : ℚ) ^ log2 a.den) ≤ (a.den : ℚ) := by exact_mod_cast d1
  have d2q : (a.den : ℚ) < (2 : ℚ) ^ (log2 a.den + 1) := by exact_mod_cast d2
  -- bounds of `a` by powers of two
  have hup : a < pow2 ((log2 a.num.natAbs : Int) - (log2 a.den : Int) + 1) := by
    rw [pow2_eq, show ((log2 a.num.natAbs : Int) - (log2 a.den : Int) + 1) =
      ((log2 a.num.natAbs + 1 : Nat) : Int) - (log2 a.den : Nat) by push_cast; ring,
      zpow_sub₀ (by norm_num), zpow_natCast, zpow_natCast]
    refine lt_of_eq_of_lt ha ?_
    rw [div_lt_div_iff hdq (by positivity)]
    calc (a.num.natAbs : ℚ) * 2 ^ log2 a.den
        < 2 ^ (log2 a.num.natAbs + 1) * 2 ^ log2 a.den := by
          apply mul_lt_mul_of_pos_right n2q (by positivity)
      _ ≤ 2 ^ (log2 a.num.natAbs + 1) * (a.den : ℚ) := by
          apply mul_le_mul_of_nonneg_left d1q (by positivity)
  have hlo : pow2 ((log2 a.num.natAbs : Int) - (log2 a.den : Int) - 1) ≤ a := by
    rw [pow2_eq, show ((log2 a.num.natAbs : Int) - (log2 a.den : Int) - 1) =
      ((log2 a.num.natAbs : Nat) : Int) - (log2 a.den + 1 : Nat) by push_cast; ring,
      zpow_sub₀ (by norm_num), zpow_natCast, zpow_natCast]
    refine le_of_le_of_eq ?_ ha.symm
    rw [div_le_div_iff (by positivity) hdq]
    calc (2 : ℚ) ^ log2 a.num.natAbs * (a.den : ℚ)
        ≤ (a.num.natAbs : ℚ) * (a.den : ℚ) := by
          apply mul_le_mul_of_nonneg_right n1q hdq.le
      _ ≤ (a.num.natAbs : ℚ) * 2 ^ (log2 a.den + 1) := by
          apply mul_le_mul_of_nonneg_left d2q.le (by positivity)
  unfold floorLog2
  simp only
  split
  · rename_i hle
    exact ⟨hle, hup⟩
  · rename_i hle
    refine ⟨hlo, ?_⟩
    rw [sub_add_cancel]
    exact not_le.mp hle

theorem JS.roundHalfEven_intCast (k : Int) : roundHalfEven (k : ℚ) = k := by
  simp [roundHalfEven]

theorem JS.le_roundHalfEven (y : ℚ) (k : Int) (h : (k : ℚ) ≤ y) : k ≤ roundHalfEven y := by
  have hk : k ≤ ⌊y⌋ := Int.le_floor.mpr h
  unfold roundHalfEven
  split
  · exact hk
  · split
    · omega
    · split <;> omega

theorem JS.roundHalfEven_le (y : ℚ) (k : Int) (h : y ≤ (k : ℚ)) : roundHalfEven y ≤ k := by
  have hk : ⌊y⌋ ≤ k := by
    have := Int.floor_le y
    exact_mod_cast (this.trans h)
  by_cases hy : y = (⌊y⌋ : ℚ)
  · rw [hy, roundHalfEven_intCast]
    exact hk
  · have hlt : (⌊y⌋ : ℚ) < y := lt_of_le_of_ne (Int.floor_le y) (fun h' => hy h'.symm)
    have hk' : ⌊y⌋ < k := by exact_mod_cast (hlt.trans_le h)
    unfold roundHalfEven
    split
    · exact hk
    · split
      · omega
      · split <;> omega

/-- The exponent and the significand used by `roundBinary64` at a non-zero `x`. -/
theorem JS.roundBinary64_shape (x : ℚ) (hx : x ≠ 0) :
    ∃ (e m : Int), -1074 ≤ e ∧ 0 ≤ m ∧ m ≤ 2 ^ 53 ∧ (-1074 < e → 2 ^ 52 ≤ m) ∧
      e = max (-1074) (floorLog2 |x| - 52) ∧ m = roundHalfEven (|x| / pow2 e) ∧
      ∀ negative, roundBinary64 negative x =
        if pow2 1024 ≤ (m : ℚ) * pow2 e then .inf (decide (x < 0))
        else if (m : ℚ) * pow2 e = 0 then (if x < 0 then .negZero else .fin 0)
        else .fin (if x < 0 then -((m : ℚ) * pow2 e) else (m : ℚ) * pow2 e) := by
  have ha : 0 < |x| := abs_pos.mpr hx
  obtain ⟨h1, h2⟩ := floorLog2_spec |x| ha
  refine ⟨max (-1074) (floorLog2 |x| - 52),
    roundHalfEven (|x| / pow2 (max (-1074) (floorLog2 |x| - 52))), le_max_left _ _, ?_, ?_, ?_,
    rfl, rfl, ?_⟩
  · have : ((0 : Int) : ℚ) ≤ |x| / pow2 (max (-1074) (floorLog2 |x| - 52)) := by
      simpa using div_nonneg ha.le (pow2_pos _).le
    exact le_roundHalfEven _ 0 this
  · apply roundHalfEven_le
    rw [div_le_iff₀ (pow2_pos _)]
    have h3 : pow2 (floorLog2 |x| + 1) ≤ pow2 (53 + max (-1074) (floorLog2 |x| - 52)) := by
      apply pow2_le_pow2
      have := le_max_right (-1074 : Int) (floorLog2 |x| - 52)
      omega
    have h53 : pow2 53 = ((2 ^ 53 : Int) : ℚ) := by norm_num [pow2_eq]
    rw [pow2_add 53, h53] at h3
    exact (h2.trans_le h3).le
  · intro hlt
    have he : max (-1074) (floorLog2 |x| - 52) = floorLog2 |x| - 52 := by
      rcases max_cases (-1074 : Int) (floorLog2 |x| - 52) with ⟨h, _⟩ | ⟨h, _⟩
      · rw [h] at hlt; omega
      · exact h
    apply le_roundHalfEven
    rw [le_div_iff₀ (pow2_pos _), he]
    have h52 : (((2 ^ 52 : Int) : ℚ)) = pow2 52 := by norm_num [pow2_eq]
    rw [h52, ← pow2_add]
    simpa using h1
  · intro negative
    simp only [roundBinary64, hx, if_false]

/-- Rounding is exact on a value `± m · 2^t` with `m ≤ 2^53`, `t ≥ -1074`, below `2^1024`. -/
theorem JS.roundBinary64_exact (negative : Bool) (x : ℚ) (m0 : Nat) (t : Int) (hx : x ≠ 0)
    (hm : m0 ≤ 2 ^ 53) (ht : -1074 ≤ t) (habs : |x| = (m0 : ℚ) * pow2 t)
    (hlt : |x| < pow2 1024) : roundBinary64 negative x = .fin x := by
  obtain ⟨e, m, _, _, _, _, he, hmdef, hform⟩ := roundBinary64_shape x hx
  have ha : 0 < |x| := abs_pos.mpr hx
  obtain ⟨h1, _⟩ := floorLog2_spec |x| ha
  have hint : ∃ j : Int, |x| / pow2 e = (j : ℚ) := by
    by_cases hte : e ≤ t
    · obtain ⟨n, hn⟩ := Int.eq_ofNat_of_zero_le (show 0 ≤ t - e by omega)
      refine ⟨(m0 : Int) * 2 ^ n, ?_⟩
      have ht' : t = e + (n : Int) := by omega
      rw [habs, ht', pow2_add, pow2_natCast]
      field_simp [(pow2_pos e).ne']
      ring
    · have hte' : t < e := not_le.mp hte
      have heL : e = floorLog2 |x| - 52 := by
        rcases max_cases (-1074 : Int) (floorLog2 |x| - 52) with ⟨h, _⟩ | ⟨h, _⟩
        · rw [h] at he; omega
        · rw [h] at he; exact he
      have hm' : (m0 : ℚ) ≤ 2 ^ 53 := by exact_mod_cast hm
      have h53 : pow2 53 = (2 : ℚ) ^ 53 := by norm_num [pow2_eq]
      have hup : |x| ≤ pow2 (53 + t) := by
        rw [habs, pow2_add, h53]
        exact mul_le_mul_of_nonneg_right hm' (pow2_pos t).le
      have hL : floorLog2 |x| = e + 52 := by omega
      rw [hL] at h1
      have het : e = t + 1 := by
        by_contra hne
        have : 53 + t < e + 52 := by omega
        exact absurd (h1.trans hup) (not_le.mpr (pow2_lt_pow2 this))
      have hm53 : (m0 : ℚ) = 2 ^ 53 := by
        apply le_antisymm hm'
        have h2 : pow2 (53 + t) ≤ (m0 : ℚ) * pow2 t := by
          rw [← habs]
          have : e + 52 = 53 + t := by omega
          rw [← this]
          exact h1
        rw [pow2_add, h53] at h2
        exact le_of_mul_le_mul_right h2 (pow2_pos t)
      refine ⟨2 ^ 52, ?_⟩
      rw [habs, hm53, het, pow2_add]
      have h1' : pow2 1 = 2 := by norm_num [pow2_eq]
      rw [h1']
      field_simp [(pow2_pos t).ne']
      norm_num
      ring
  obtain ⟨j, hj⟩ := hint
  have hmj : (m : ℚ) * pow2 e = |x| := by
    rw [hmdef, hj, roundHalfEven_intCast, ← hj]
    field_simp [(pow2_pos e).ne']
  rw [hform negative, hmj, if_neg (not_le.mpr hlt), if_neg ha.ne']
  congr 1
  split
  · rename_i hneg
    rw [abs_of_neg hneg, neg_neg]
  · rename_i hneg
    exact abs_of_nonneg (not_lt.mp hneg)

/-- Every rounded result is a binary64 value. -/
theorem JS.roundBinary64_isBinary64 (negative : Bool) (x : ℚ) :
    (roundBinary64 negative x).isBinary64 = true := by
  have h0 : (RawNum.fin 0).isBinary64 = true := by
    simp [RawNum.isBinary64, roundBinary64]
  by_cases hx : x = 0
  · simp only [roundBinary64, hx, if_true]
    split
    · rfl
    · exact h0
  obtain ⟨e, m, he, hm0, hm53, _, _, _, hform⟩ := roundBinary64_shape x hx
  rw [hform negative]
  split
  · rfl
  rename_i hlt
  split
  · split
    · rfl
    · exact h0
  rename_i hne
  have hr : 0 < (m : ℚ) * pow2 e := by
    have : (0 : ℚ) ≤ (m : ℚ) := by exact_mod_cast hm0
    exact lt_of_le_of_ne (mul_nonneg this (pow2_pos e).le) (Ne.symm hne)
  obtain ⟨n, rfl⟩ := Int.eq_ofNat_of_zero_le hm0
  have hn : n ≤ 2 ^ 53 := by exact_mod_cast hm53
  have key : ∀ y : ℚ, |y| = ((n : Int) : ℚ) * pow2 e → y ≠ 0 →
      (RawNum.fin y).isBinary64 = true := by
    intro y hy hy0
    have := roundBinary64_exact false y n e hy0 hn he (by simpa using hy)
      (by rw [hy]; exact not_le.mp hlt)
    simp [RawNum.isBinary64, this]
  split
  · apply key
    · rw [abs_neg, abs_of_pos hr]
    · exact neg_ne_zero.mpr hr.ne'
  · apply key
    · rw [abs_of_pos hr]
    · exact hr.ne'

theorem JSNum.ext_raw {a b : JSNum} (h : a.raw = b.raw) : a = b := by
  cases a
  cases b
  cases h
  rfl

theorem JSNum.nearest_raw (negative : Bool) (x : ℚ) :
    (JSNum.nearest negative x).raw = roundBinary64 negative x := by
  simp [JSNum.nearest, JSNum.ofRaw, roundBinary64_isBinary64]

/-- An integer of magnitude at most `2^53` is a binary64 value. -/
theorem JSNum.ofRat_intCast (k : Int) (h : k.natAbs ≤ 2 ^ 53) :
    (JSNum.ofRat (k : ℚ)).raw = .fin (k : ℚ) := by
  rw [JSNum.ofRat, JSNum.nearest_raw]
  by_cases hk : k = 0
  · subst hk
    simp [roundBinary64]
  · apply roundBinary64_exact false (k : ℚ) k.natAbs 0 (by exact_mod_cast hk) h (by norm_num)
    · rw [show pow2 0 = 1 by norm_num [pow2_eq], mul_one, ← Int.cast_abs,
        ← Int.cast_natCast, Int.natCast_natAbs]
    · have h1 : pow2 1024 = (2 : ℚ) ^ 1024 := by norm_num [pow2_eq]
      have h2 : |(k : ℚ)| ≤ 2 ^ 53 := by
        rw [← Int.cast_abs, ← Int.natCast_natAbs, Int.cast_natCast]
        exact_mod_cast h
      rw [h1]
      exact lt_of_le_of_lt h2 (by norm_num)

/-- Rounding a value of at least `2^53` gives at least `2^53`, or `Infinity`. -/
theorem JS.roundBinary64_ge (negative : Bool) (x : ℚ) (h : 2 ^ 53 ≤ x) :
    roundBinary64 negative x = .inf false ∨
      ∃ r : ℚ, roundBinary64 negative x = .fin r ∧ 2 ^ 53 ≤ r := by
  have hpos : 0 < x := lt_of_lt_of_le (by norm_num) h
  obtain ⟨e, m, _, _, _, hnorm, he, _, hform⟩ := roundBinary64_shape x hpos.ne'
  obtain ⟨_, h2⟩ := floorLog2_spec |x| (abs_pos.mpr hpos.ne')
  rw [abs_of_pos hpos] at h2 he
  have h53 : pow2 53 = (2 : ℚ) ^ 53 := by norm_num [pow2_eq]
  have hL : 53 ≤ floorLog2 x := by
    by_contra hlt
    have : floorLog2 x + 1 ≤ 53 := by omega
    have := pow2_le_pow2 this
    rw [h53] at this
    exact absurd (h.trans_lt h2) (not_lt.mpr this)
  have he1 : 1 ≤ e := by
    rw [he]
    exact le_max_of_le_right (by omega)
  have hm : (2 : ℚ) ^ 52 ≤ (m : ℚ) := by
    have := hnorm (by omega)
    exact_mod_cast this
  have hr : (2 : ℚ) ^ 53 ≤ (m : ℚ) * pow2 e := by
    have h1 : pow2 1 ≤ pow2 e := pow2_le_pow2 he1
    rw [show pow2 1 = 2 by norm_num [pow2_eq]] at h1
    calc (2 : ℚ) ^ 53 = 2 ^ 52 * 2 := by norm_num
      _ ≤ (m : ℚ) * pow2 e := mul_le_mul hm h1 (by norm_num) (by linarith)
  rw [hform negative]
  have hxneg : ¬ x < 0 := not_lt.mpr hpos.le
  split
  · left
    simp [hxneg]
  · right
    rw [if_neg (by linarith [show (0 : ℚ) < 2 ^ 53 by norm_num])]
    exact ⟨_, rfl, hr⟩

end Rounding

/-! ## Normalisation of the requested ids -/

section Normalise

open CreatePaymentIntent

theorem isBoxId_iff (b : JSStr) :
    isBoxId b = true ↔ ∃ c, b = [c] ∧ 65 ≤ c ∧ c ≤ 90 := by
  have hA : js "A" = [65] := by decide
  have hZ : js "Z" = [90] := by decide
  constructor
  · intro h
    match b, h with
    | [c], h =>
      refine ⟨c, rfl, ?_, ?_⟩
      · by_contra hc
        have : c < 65 := by omega
        simp [isBoxId, strGe, strLe, strLt, hA, hZ, this] at h
      · by_contra hc
        have : 90 < c := by omega
        simp [isBoxId, strGe, strLe, strLt, hA, hZ, this] at h
    | [], h => simp [isBoxId] at h
    | _ :: _ :: _, h => simp [isBoxId] at h
  · rintro ⟨c, rfl, h1, h2⟩
    have h3 : ¬ c < 65 := by omega
    have h4 : ¬ 90 < c := by omega
    simp [isBoxId, strGe, strLe, strLt, hA, hZ, h3, h4]

theorem foldl_setAdd_nodup (xs : List JSStr) :
    ∀ acc : List JSStr, acc.Nodup → (xs.foldl setAdd acc).Nodup := by
  induction xs with
  | nil => intro acc h; simpa using h
  | cons x xs ih =>
    intro acc h
    simp only [List.foldl_cons]
    apply ih
    unfold setAdd
    split
    · exact h
    · rename_i hx
      rw [List.nodup_append]
      refine ⟨h, List.nodup_singleton x, ?_⟩
      intro a ha hb
      simp at hb
      exact hx (hb ▸ ha)

theorem mem_foldl_setAdd (xs : List JSStr) :
    ∀ (acc : List JSStr) (y : JSStr), y ∈ xs.foldl setAdd acc ↔ y ∈ acc ∨ y ∈ xs := by
  induction xs with
  | nil => intro acc y; simp
  | cons x xs ih =>
    intro acc y
    simp only [List.foldl_cons, ih, List.mem_cons]
    unfold setAdd
    split
    · rename_i hx
      constructor
      · rintro (h | h)
        · exact Or.inl h
        · exact Or.inr (Or.inr h)
      · rintro (h | h | h)
        · exact Or.inl h
        · exact Or.inl (h ▸ hx)
        · exact Or.inr h
    · simp only [List.mem_append, List.mem_singleton]
      tauto

theorem foldl_setAdd_of_nodup (xs : List JSStr) :
    ∀ acc : List JSStr, (acc ++ xs).Nodup → xs.foldl setAdd acc = acc ++ xs := by
  induction xs with
  | nil => intro acc _; simp
  | cons x xs ih =>
    intro acc h
    have hx : x ∉ acc := by
      intro hx
      rw [List.nodup_append] at h
      exact h.2.2 hx (List.mem_cons_self x xs)
    simp only [List.foldl_cons, setAdd, hx, if_false]
    rw [ih]
    · simp
    · simpa using h

theorem newSet_nodup (xs : List JSStr) : (newSet xs).Nodup :=
  foldl_setAdd_nodup xs [] List.nodup_nil

theorem mem_newSet (xs : List JSStr) (y : JSStr) : y ∈ newSet xs ↔ y ∈ xs := by
  simp [newSet, mem_foldl_setAdd]

theorem newSet_of_nodup (xs : List JSStr) (h : xs.Nodup) : newSet xs = xs := by
  simpa [newSet] using foldl_setAdd_of_nodup xs [] (by simpa using h)

/-- The normalisation step on strings: deduplicate, then keep the box ids. -/
theorem clean_strings (R : Runtime) (ids : List JSStr) :
    clean R (ids.map Value.str) = .ok ((newSet ids).filter isBoxId) := by
  have h : ∀ l : List JSStr, (l.map Value.str).mapM (JS.toString R) = Except.ok l := by
    intro l
    induction l with
    | nil => rfl
    | cons a l ih =>
      simp only [List.map_cons, List.mapM_cons, ih]
      rfl
  unfold clean
  rw [h]
  rfl

theorem clean_eq_ok (R : Runtime) (boxes : List Value) (c : List JSStr)
    (h : clean R boxes = .ok c) :
    ∃ strings, boxes.mapM (JS.toString R) = .ok strings ∧
      c = (newSet strings).filter isBoxId := by
  unfold clean at h
  cases hm : boxes.mapM (JS.toString R) with
  | error e => rw [hm] at h; cases h
  | ok strings =>
    rw [hm] at h
    refine ⟨strings, rfl, ?_⟩
    cases h
    rfl

theorem length_le_of_boxIds (c : List JSStr) (hn : c.Nodup)
    (hc : ∀ b ∈ c, ∃ ch, b = [ch] ∧ 65 ≤ ch ∧ ch ≤ 90) : c.length ≤ 26 := by
  have hsub : c ⊆ (List.range 26).map fun i => [65 + i] := by
    intro b hb
    obtain ⟨ch, rfl, h1, h2⟩ := hc b hb
    simp only [List.mem_map, List.mem_range]
    exact ⟨ch - 65, by omega, by congr 1; omega⟩
  have := (List.Nodup.subperm hn hsub).length_le
  simpa using this

end Normalise

section Handler
open CreatePaymentIntent

@[simp] theorem Eff.pure_def {α : Type} (a : α) : (pure a : Eff α) = ⟨[], .ok a⟩ := rfl

@[simp] theorem Eff.bind_def {α β : Type} (m : Eff α) (f : α → Eff β) :
    (m >>= f) = Eff.bind m f := rfl

@[simp] theorem Eff.bind_ok {α β : Type} (cs : List Call) (a : α) (f : α → Eff β) :
    Eff.bind ⟨cs, .ok a⟩ f = Eff.after cs (f a) := rfl

@[simp] theorem Eff.bind_error {α β : Type} (cs : List Call) (e : Error) (f : α → Eff β) :
    Eff.bind ⟨cs, .error e⟩ f = ⟨cs, .error e⟩ := rfl

@[simp] theorem Eff.after_mk {α : Type} (cs ds : List Call) (r : Except Error α) :
    Eff.after cs ⟨ds, r⟩ = ⟨cs ++ ds, r⟩ := rfl

@[simp] theorem Eff.tryCatch_ok {α : Type} (cs : List Call) (a : α) (h : Error → Eff α) :
    Eff.tryCatch ⟨cs, .ok a⟩ h = ⟨cs, .ok a⟩ := rfl

@[simp] theorem Eff.tryCatch_error {α : Type} (cs : List Call) (e : Error) (h : Error → Eff α) :
    Eff.tryCatch ⟨cs, .error e⟩ h = Eff.after cs (h e) := rfl

@[simp] theorem Eff.lift_def {α : Type} (x : Except Error α) : Eff.lift x = ⟨[], x⟩ := rfl

@[simp] theorem Eff.call_def {α : Type} (c : Call) (x : Except Error α) : Eff.call c x = ⟨[c], x⟩ := rfl

theorem mapM_toString_ok (R : Runtime) (p : JSStr → Prop) (items : List Value)
    (h : ∀ v ∈ items, ∃ s, JS.toString R v = .ok s ∧ p s) :
    ∃ strings, items.mapM (JS.toString R) = .ok strings ∧ ∀ s ∈ strings, p s := by
  induction items with
  | nil => exact ⟨[], rfl, by simp⟩
  | cons v items ih =>
    obtain ⟨s, hs, hp⟩ := h v (List.mem_cons_self v items)
    obtain ⟨strings, hm, hall⟩ := ih fun w hw => h w (List.mem_cons_of_mem v hw)
    refine ⟨s :: strings, ?_, ?_⟩
    · simp only [List.mapM_cons, hs, hm]
      rfl
    · intro t ht
      rcases List.mem_cons.mp ht with rfl | ht
      · exact hp
      · exact hall t ht


/-- A handler whose trace holds the registry read got there through a non-empty normalised
list, a configured database client and a price row whose value converts to a number. -/
theorem handler_reaches_selectBoxes (R : Runtime) (env : Env) (W : World) (req : Request)
    (ids : List JSStr) (h : Call.selectBoxes ids ∈ (handler R env W req).calls) :
    req.method = js "POST" ∧ ∃ items setting p,
      arrayItems (getProp req.body (js "boxes")) = some items ∧
      clean R items = .ok ids ∧ ids ≠ [] ∧ W.supabaseAdmin = .ok () ∧
      W.selectPrice = .ok ⟨some setting, none⟩ ∧ toNumber R setting.value = .ok p := by
  by_cases hm : req.method = js "POST"
  swap
  · simp [handler, hm] at h
  refine ⟨hm, ?_⟩
  cases hb : arrayItems (getProp req.body (js "boxes")) with
  | none => simp [handler, hm, hb] at h
  | some items =>
  by_cases hl : items = []
  · simp [handler, hm, hb, hl] at h
  cases hc : clean R items with
  | error e => simp [handler, hm, hb, hl, hc] at h
  | ok c =>
  by_cases hcl : c = []
  · simp [handler, hm, hb, hl, hc, hcl] at h
  cases hsb : W.supabaseAdmin with
  | error e => simp [handler, hm, hb, hl, hc, hcl, hsb] at h
  | ok u =>
  cases hsp : W.selectPrice with
  | error e => simp [handler, hm, hb, hl, hc, hcl, hsb, hsp] at h
  | ok reply =>
  obtain ⟨setting, se⟩ := reply
  cases se with
  | some err => simp [handler, hm, hb, hl, hc, hcl, hsb, hsp] at h
  | none =>
  cases setting with
  | none => simp [handler, hm, hb, hl, hc, hcl, hsb, hsp] at h
  | some setting =>
  cases hp : toNumber R setting.value with
  | error e => simp [handler, hm, hb, hl, hc, hcl, hsb, hsp, hp] at h
  | ok p =>
  have hids : ids = c := by
    cases hbx : W.selectBoxes c with
    | error e => simpa [handler, hm, hb, hl, hc, hcl, hsb, hsp, hp, hbx] using h
    | ok reply =>
    obtain ⟨current, be⟩ := reply
    cases be with
    | some err => simpa [handler, hm, hb, hl, hc, hcl, hsb, hsp, hp, hbx] using h
    | none =>
    cases current with
    | none => simpa [handler, hm, hb, hl, hc, hcl, hsb, hsp, hp, hbx] using h
    | some rows =>
    by_cases hs : sold rows = []
    swap
    · simpa [handler, hm, hb, hl, hc, hcl, hsb, hsp, hp, hbx, hs] using h
    cases hk : stripeClient env with
    | error e => simpa [handler, hm, hb, hl, hc, hcl, hsb, hsp, hp, hbx, hs, hk] using h
    | ok u =>
    cases hpi : W.createPaymentIntent ⟨amount p c.length, js "usd", true, join (js ",") c,
        numberToString R p⟩ with
    | error e => simpa [handler, hm, hb, hl, hc, hcl, hsb, hsp, hp, hbx, hs, hk, hpi] using h
    | ok pi => simpa [handler, hm, hb, hl, hc, hcl, hsb, hsp, hp, hbx, hs, hk, hpi] using h
  subst hids
  exact ⟨items, setting, p, rfl, hc, hcl, rfl, rfl, hp⟩

theorem clean_nil (R : Runtime) : clean R [] = .ok [] := rfl

theorem sold_eq_nil_iff (rows : List BoxRow) :
    sold rows = [] ↔ ∀ x ∈ rows, x.status ≠ js "sold" := by
  simp [sold, List.filter_eq_nil_iff]

/-- Outcome when the registry reply holds a sold row: 409 after the two reads. -/
theorem handler_conflict (R : Runtime) (env : Env) (W : World) (req : Request)
    (items : List Value) (c : List JSStr) (setting : SettingRow) (p : JSNum) (rows : List BoxRow)
    (hm : req.method = js "POST")
    (hb : arrayItems (getProp req.body (js "boxes")) = some items)
    (hc : clean R items = .ok c) (hne : c ≠ []) (hsb : W.supabaseAdmin = .ok ())
    (hsp : W.selectPrice = .ok ⟨some setting, none⟩) (hp : toNumber R setting.value = .ok p)
    (hbx : W.selectBoxes c = .ok ⟨some rows, none⟩) (hs : sold rows ≠ []) :
    handler R env W req = ⟨[.selectPrice, .selectBoxes c],
      .ok ⟨409, .error (js "Already sold: " ++ join (js ", ") (sold rows))⟩⟩ := by
  have hl : items ≠ [] := by
    rintro rfl
    rw [clean_nil] at hc
    cases hc
    exact hne rfl
  simp [handler, hm, hb, hl, hc, hne, hsb, hsp, hp, hbx, hs]

/-- Outcome when the registry reply holds no sold row and the processor is configured:
the processor is called for the whole normalised list. -/
theorem handler_pay (R : Runtime) (env : Env) (W : World) (req : Request)
    (items : List Value) (c : List JSStr) (setting : SettingRow) (p : JSNum) (rows : List BoxRow)
    (hm : req.method = js "POST")
    (hb : arrayItems (getProp req.body (js "boxes")) = some items)
    (hc : clean R items = .ok c) (hne : c ≠ []) (hsb : W.supabaseAdmin = .ok ())
    (hsp : W.selectPrice = .ok ⟨some setting, none⟩) (hp : toNumber R setting.value = .ok p)
    (hbx : W.selectBoxes c = .ok ⟨some rows, none⟩) (hs : sold rows = [])
    (hk : stripeClient env = .ok ()) :
    handler R env W req = ⟨[.selectPrice, .selectBoxes c, .createPaymentIntent
        ⟨amount p c.length, js "usd", true, join (js ",") c, numberToString R p⟩],
      match W.createPaymentIntent
        ⟨amount p c.length, js "usd", true, join (js ",") c, numberToString R p⟩ with
      | .ok pi => .ok ⟨200, .payment pi.client_secret p⟩
      | .error e => .ok (serverError e)⟩ := by
  have hl : items ≠ [] := by
    rintro rfl
    rw [clean_nil] at hc
    cases hc
    exact hne rfl
  cases hpi : W.createPaymentIntent ⟨amount p c.length, js "usd", true, join (js ",") c,
      numberToString R p⟩ with
  | error e => simp [handler, hm, hb, hl, hc, hne, hsb, hsp, hp, hbx, hs, hk, hpi]
  | ok pi => simp [handler, hm, hb, hl, hc, hne, hsb, hsp, hp, hbx, hs, hk, hpi]

/-- A handler whose trace holds a processor call got there through a registry reply
without sold row, and called the processor with the amount for the normalised list. -/
theorem handler_reaches_create (R : Runtime) (env : Env) (W : World) (req : Request)
    (params : PaymentIntentParams)
    (h : Call.createPaymentIntent params ∈ (handler R env W req).calls) :
    ∃ items c setting p rows,
      arrayItems (getProp req.body (js "boxes")) = some items ∧
      clean R items = .ok c ∧ c ≠ [] ∧
      W.selectPrice = .ok ⟨some setting, none⟩ ∧ toNumber R setting.value = .ok p ∧
      W.selectBoxes c = .ok ⟨some rows, none⟩ ∧ sold rows = [] ∧
      params = ⟨amount p c.length, js "usd", true, join (js ",") c, numberToString R p⟩ := by
  by_cases hm : req.method = js "POST"
  swap
  · simp [handler, hm] at h
  cases hb : arrayItems (getProp req.body (js "boxes")) with
  | none => simp [handler, hm, hb] at h
  | some items =>
  by_cases hl : items = []
  · simp [handler, hm, hb, hl] at h
  cases hc : clean R items with
  | error e => simp [handler, hm, hb, hl, hc] at h
  | ok c =>
  by_cases hcl : c = []
  · simp [handler, hm, hb, hl, hc, hcl] at h
  cases hsb : W.supabaseAdmin with
  | error e => simp [handler, hm, hb, hl, hc, hcl, hsb] at h
  | ok u =>
  cases hsp : W.selectPrice with
  | error e => simp [handler, hm, hb, hl, hc, hcl, hsb, hsp] at h
  | ok reply =>
  obtain ⟨setting, se⟩ := reply
  cases se with
  | some err => simp [handler, hm, hb, hl, hc, hcl, hsb, hsp] at h
  | none =>
  cases setting with
  | none => simp [handler, hm, hb, hl, hc, hcl, hsb, hsp] at h
  | some setting =>
  cases hp : toNumber R setting.value with
  | error e => simp [handler, hm, hb, hl, hc, hcl, hsb, hsp, hp] at h
  | ok p =>
  cases hbx : W.selectBoxes c with
  | error e => simp [handler, hm, hb, hl, hc, hcl, hsb, hsp, hp, hbx] at h
  | ok reply =>
  obtain ⟨current, be⟩ := reply
  cases be with
  | some err => simp [handler, hm, hb, hl, hc, hcl, hsb, hsp, hp, hbx] at h
  | none =>
  cases current with
  | none => simp [handler, hm, hb, hl, hc, hcl, hsb, hsp, hp, hbx] at h
  | some rows =>
  by_cases hs : sold rows = []
  swap
  · simp [handler, hm, hb, hl, hc, hcl, hsb, hsp, hp, hbx, hs] at h
  cases hk : stripeClient env with
  | error e => simp [handler, hm, hb, hl, hc, hcl, hsb, hsp, hp, hbx, hs, hk] at h
  | ok u =>
  have hH := handler_pay R env W req items c setting p rows hm hb hc hcl hsb hsp hp hbx hs hk
  rw [hH] at h
  simp at h
  exact ⟨items, c, setting, p, rows, rfl, hc, hcl, rfl, hp, hbx, hs, h⟩

end Handler

/-! ## Arithmetic on numbers -/

section Arithmetic

open JS

theorem JS.roundBinary64_flag (s t : Bool) (x : ℚ) (hx : x ≠ 0) :
    roundBinary64 s x = roundBinary64 t x := by
  simp [roundBinary64, hx]

theorem JSNum.raw_eq_fin (a : JSNum) (q : ℚ) (h : a.raw = .fin q) (s : Bool)
    (hs : q = 0 → s = false) : roundBinary64 s q = .fin q := by
  have hv := a.isBinary64
  rw [h] at hv
  simp only [RawNum.isBinary64, beq_iff_eq] at hv
  by_cases hq : q = 0
  · rw [hs hq]; exact hv
  · rw [roundBinary64_flag s false q hq]; exact hv

theorem JSNum.ofRat_natCast (n : Nat) (h : n ≤ 2 ^ 53) :
    (JSNum.ofRat (n : ℚ)).raw = .fin (n : ℚ) := by
  have := JSNum.ofRat_intCast (n : Int) (by simpa using h)
  simpa using this

/-- Rounding an integer of magnitude at most `2^53` keeps its value. -/
theorem JS.roundBinary64_int (s : Bool) (k : Int) (h : k.natAbs ≤ 2 ^ 53) :
    roundBinary64 s (k : ℚ) = .fin (k : ℚ) ∨ (k = 0 ∧ roundBinary64 s (k : ℚ) = .negZero) := by
  by_cases hk : k = 0
  · subst hk
    cases s
    · left; simp [roundBinary64]
    · right; simp [roundBinary64]
  · left
    have h1 := JSNum.ofRat_intCast k h
    rw [JSNum.ofRat, JSNum.nearest_raw] at h1
    rw [roundBinary64_flag s false _ (by exact_mod_cast hk)]
    exact h1

/-- The product of two finite numbers is the rounded exact product. -/
theorem JSNum.mul_raw_of_finite (a b : JSNum) (ha : a.isFinite = true) (hb : b.isFinite = true) :
    (a.mul b).raw =
      roundBinary64 (a.raw.negative != b.raw.negative) (a.raw.value * b.raw.value) := by
  unfold JSNum.isFinite at ha hb
  unfold JSNum.mul
  split at ha <;> split at hb <;> simp_all [JSNum.nearest_raw]

/-- The difference of two finite numbers is the rounded exact difference. -/
theorem JSNum.sub_raw_of_finite (a b : JSNum) (ha : a.isFinite = true) (hb : b.isFinite = true) :
    (a.sub b).raw =
      roundBinary64 (a.raw.negative && !b.raw.negative) (a.raw.value - b.raw.value) := by
  unfold JSNum.isFinite at ha hb
  unfold JSNum.sub
  split at ha <;> split at hb <;> simp_all [JSNum.nearest_raw]

theorem JSNum.isFinite_of_raw_fin (a : JSNum) (q : ℚ) (h : a.raw = .fin q) :
    a.isFinite = true := by
  simp [JSNum.isFinite, h]

theorem JSNum.mul_one (a : JSNum) : a.mul (.ofRat 1) = a := by
  have h1 : (JSNum.ofRat 1).raw = .fin 1 := by
    simpa using JSNum.ofRat_natCast 1 (by norm_num)
  apply JSNum.ext_raw
  cases hr : a.raw with
  | nan => simp [JSNum.mul, hr, JSNum.nan]
  | inf s =>
    simp [JSNum.mul, hr, h1, RawNum.value, RawNum.negative, JSNum.inf,
      (by norm_num : ¬ (1 : ℚ) < 0)]
  | negZero =>
    rw [JSNum.mul_raw_of_finite a _ (by simp [JSNum.isFinite, hr])
      (JSNum.isFinite_of_raw_fin _ 1 h1), hr, h1]
    simp [RawNum.value, RawNum.negative, roundBinary64]
  | fin q =>
    rw [JSNum.mul_raw_of_finite a _ (JSNum.isFinite_of_raw_fin a q hr)
      (JSNum.isFinite_of_raw_fin _ 1 h1), hr, h1]
    rw [show RawNum.value (.fin q) * RawNum.value (.fin 1) = q by simp [RawNum.value]]
    apply JSNum.raw_eq_fin a q hr
    intro hq
    simp [hq, RawNum.negative]

theorem JSNum.gt_of_finite (a b : JSNum) (ha : a.isFinite = true) (hb : b.isFinite = true) :
    a.gt b = decide (b.raw.value < a.raw.value) := by
  unfold JSNum.isFinite at ha hb
  unfold JSNum.gt
  split at ha <;> split at hb <;> simp_all

theorem JSNum.le_of_finite (a b : JSNum) (ha : a.isFinite = true) (hb : b.isFinite = true) :
    a.le b = decide (a.raw.value ≤ b.raw.value) := by
  unfold JSNum.isFinite at ha hb
  unfold JSNum.le
  split at ha <;> split at hb <;> simp_all

end Arithmetic

/-! ## Claims about `api/create-payment-intent.js` -/

section PaymentClaims

open CreatePaymentIntent

theorem amount_one_mul (p : JSNum) (n : Nat) : amount p n = (amount p 1).mul (.ofRat n) := by
  unfold amount
  rw [Nat.cast_one, JSNum.mul_one]

theorem JSNum.finite_of_raw_int (a : JSNum) (s : Bool) (k : Int) (hk : k.natAbs ≤ 2 ^ 53)
    (h : a.raw = roundBinary64 s (k : ℚ)) : a.isFinite = true ∧ a.raw.value = (k : ℚ) := by
  rcases roundBinary64_int s k hk with h1 | ⟨h0, h1⟩
  · rw [h1] at h
    simp [JSNum.isFinite, h, RawNum.value]
  · rw [h1] at h
    simp [JSNum.isFinite, h, RawNum.value, h0]

/-- The amount in exact terms: `⌊x + 1/2⌋ · n`, where `x` is the binary64 product of the
price and 100, as long as that integer stays within `2^53`. -/
theorem amount_value (p : JSNum) (q x : ℚ) (n : Nat) (hp : p.raw = .fin q)
    (hx : roundBinary64 (decide (q < 0)) (q * 100) = .fin x) (hn : 1 ≤ n ∧ n ≤ 26)
    (hk : ⌊x + 1 / 2⌋.natAbs * n ≤ 2 ^ 53) :
    (amount p n).isFinite = true ∧ (amount p n).raw.value = ((⌊x + 1 / 2⌋ * n : Int) : ℚ) := by
  have h100 : (JSNum.ofRat 100).raw = .fin 100 := by
    simpa using JSNum.ofRat_natCast 100 (by norm_num)
  have hnr : (JSNum.ofRat (n : ℚ)).raw = .fin (n : ℚ) :=
    JSNum.ofRat_natCast n (le_trans hn.2 (by norm_num))
  have hmul : (p.mul (.ofRat 100)).raw = .fin x := by
    rw [JSNum.mul_raw_of_finite p _ (JSNum.isFinite_of_raw_fin p q hp)
      (JSNum.isFinite_of_raw_fin _ 100 h100), hp, h100]
    simpa [RawNum.value, RawNum.negative, (by norm_num : ¬ (100 : ℚ) < 0)] using hx
  have hround : (Math.round (p.mul (.ofRat 100))).raw =
      roundBinary64 (decide (x < 0)) ((⌊x + 1 / 2⌋ : Int) : ℚ) := by
    simp [Math.round, hmul, JSNum.nearest_raw]
  have hk1 : ⌊x + 1 / 2⌋.natAbs ≤ 2 ^ 53 :=
    le_trans (Nat.le_mul_of_pos_right _ hn.1) hk
  obtain ⟨hf, hv⟩ := JSNum.finite_of_raw_int _ _ _ hk1 hround
  have hprod : (amount p n).raw = roundBinary64
      ((Math.round (p.mul (.ofRat 100))).raw.negative != (RawNum.fin (n : ℚ)).negative)
      (((⌊x + 1 / 2⌋ * n : Int) : ℚ)) := by
    unfold amount
    rw [JSNum.mul_raw_of_finite _ _ hf (JSNum.isFinite_of_raw_fin _ _ hnr), hnr, hv]
    simp [RawNum.value]
  exact JSNum.finite_of_raw_int _ _ _ (by rw [Int.natAbs_mul]; simpa using hk) hprod

theorem clean_length (R : Runtime) (items : List Value) (strings c : List JSStr)
    (hs : items.mapM (JS.toString R) = .ok strings) (hc : clean R items = .ok c) :
    c.length = ((strings.filter isBoxId).toFinset).card := by
  obtain ⟨strings', hs', rfl⟩ := clean_eq_ok R items c hc
  rw [hs] at hs'
  cases hs'
  rw [← List.toFinset_card_of_nodup ((newSet_nodup strings).filter _)]
  congr 1
  ext b
  simp [mem_newSet]

/-- C1: when the registry read of a `POST` request with a non-empty normalised list was made
and returned rows of which at least one is sold, the response is 409, its message lists
exactly the ids of the returned rows with status `sold`, and the processor is not called. -/
theorem handler_sold_conflict (R : Runtime) (env : Env) (W : World) (req : Request)
    (items : List Value) (c : List JSStr) (rows : List BoxRow)
    (hm : req.method = js "POST")
    (hb : arrayItems (getProp req.body (js "boxes")) = some items)
    (hc : clean R items = .ok c) (hne : c ≠ [])
    (hread : Call.selectBoxes c ∈ (handler R env W req).calls)
    (hrows : W.selectBoxes c = .ok ⟨some rows, none⟩)
    (hsold : ∃ x ∈ rows, x.status = js "sold") :
    (handler R env W req).result = .ok ⟨409, .error (js "Already sold: " ++
        join (js ", ") ((rows.filter fun x => x.status = js "sold").map fun x => x.id))⟩ ∧
      ∀ params, Call.createPaymentIntent params ∉ (handler R env W req).calls := by
  obtain ⟨_, items', setting, p, hb', hc', _, hsb, hsp, hp⟩ :=
    handler_reaches_selectBoxes R env W req c hread
  have hs : sold rows ≠ [] := by
    rw [Ne, sold_eq_nil_iff]
    obtain ⟨x, hx, hst⟩ := hsold
    exact fun h => h x hx hst
  rw [handler_conflict R env W req items c setting p rows hm hb hc hne hsb hsp hp hrows hs]
  refine ⟨?_, ?_⟩
  · rfl
  · intro params
    simp

/-- C2: every processor call of the handler carries the amount
`Math.round(p * 100) * clean.length`, where `p` is the stored price converted by `Number`
and `clean.length`, between 1 and 26, counts the distinct valid ids among the string forms
of the request items, not the items.  In exact terms the amount is `⌊x + 1/2⌋ · count`,
`x` being the binary64 product of the price and 100, as long as that integer stays within
`2^53`.  The amount for `n` ids is `n` times the amount for one id.  For price 3 and ids
`A`, `B`, `C` it is 900; a stored `1.045` gives 105 per id and a stored `1.005` gives 100. -/
theorem handler_amount (R : Runtime) (env : Env) (W : World) (req : Request)
    (params : PaymentIntentParams)
    (hcall : Call.createPaymentIntent params ∈ (handler R env W req).calls) :
    (∃ items strings c setting p,
      arrayItems (getProp req.body (js "boxes")) = some items ∧
      items.mapM (JS.toString R) = .ok strings ∧ clean R items = .ok c ∧
      c.length = ((strings.filter isBoxId).toFinset).card ∧ 1 ≤ c.length ∧ c.length ≤ 26 ∧
      W.selectPrice = .ok ⟨some setting, none⟩ ∧ toNumber R setting.value = .ok p ∧
      params.amount = (Math.round (p.mul (.ofRat 100))).mul (.ofRat c.length) ∧
      ∀ q x : ℚ, p.raw = .fin q → roundBinary64 (decide (q < 0)) (q * 100) = .fin x →
        ⌊x + 1 / 2⌋.natAbs * c.length ≤ 2 ^ 53 →
        params.amount.isFinite = true ∧
          params.amount.raw.value = ((⌊x + 1 / 2⌋ * c.length : Int) : ℚ)) ∧
    (∀ (p : JSNum) (n : Nat), amount p n = (amount p 1).mul (.ofRat n)) ∧
    (clean R [.str (js "A"), .str (js "B"), .str (js "C")] = .ok [js "A", js "B", js "C"] ∧
      amount (.ofRat 3) [js "A", js "B", js "C"].length = .ofRat 900 ∧
      amount (stringToNumber (js "1.045")) 2 = .ofRat 210 ∧
      amount (stringToNumber (js "1.005")) 1 = .ofRat 100 ∧
      amount (stringToNumber (js "0.994")) 1 = .ofRat 99 ∧
      amount (stringToNumber (js "19.99")) 26 = .ofRat 51974) := by
  refine ⟨?_, amount_one_mul, rfl, by decide!, by decide!, by decide!, by decide!, by decide!⟩
  obtain ⟨items, c, setting, p, rows, hb, hc, hne, hsp, hp, _, _, rfl⟩ :=
    handler_reaches_create R env W req params hcall
  obtain ⟨strings, hs, _⟩ := clean_eq_ok R items c hc
  have h1 : 1 ≤ c.length := by
    cases c with
    | nil => exact absurd rfl hne
    | cons _ _ => simp
  have h26 : c.length ≤ 26 := by
    obtain ⟨strings', _, rfl⟩ := clean_eq_ok R items c hc
    have hn : ((newSet strings').filter isBoxId).Nodup := (newSet_nodup strings').filter _
    exact length_le_of_boxIds _ hn fun b hb => (isBoxId_iff b).mp (List.mem_filter.mp hb).2
  refine ⟨items, strings, c, setting, p, hb, hs, hc, clean_length R items strings c hs hc,
    h1, h26, hsp, hp, rfl, ?_⟩
  intro q x hq hx hk
  exact amount_value p q x c.length hq hx ⟨h1, h26⟩ hk

theorem handler_amount_witness :
    (Call.createPaymentIntent ⟨.ofRat 900, js "usd", true, js "A,B,C", js "3"⟩ ∈
        (handler zeroRuntime sampleEnv (sampleWorld (.ofRat 3) [])
          (boxesRequest [js "A", js "B", js "C", js "A", js "b"])).calls ∧
      ∃ items strings c setting p,
        arrayItems (getProp (boxesRequest [js "A", js "B", js "C", js "A", js "b"]).body
          (js "boxes")) = some items ∧
        items.mapM (JS.toString zeroRuntime) = .ok strings ∧
        clean zeroRuntime items = .ok c ∧
        c.length = ((strings.filter isBoxId).toFinset).card ∧ 1 ≤ c.length ∧ c.length ≤ 26 ∧
        (sampleWorld (.ofRat 3) []).selectPrice = .ok ⟨some setting, none⟩ ∧
        toNumber zeroRuntime setting.value = .ok p ∧
        JSNum.ofRat 900 = (Math.round (p.mul (.ofRat 100))).mul (.ofRat c.length) ∧
        ∀ q x : ℚ, p.raw = .fin q → roundBinary64 (decide (q < 0)) (q * 100) = .fin x →
          ⌊x + 1 / 2⌋.natAbs * c.length ≤ 2 ^ 53 →
          (JSNum.ofRat 900).isFinite = true ∧
            (JSNum.ofRat 900).raw.value = ((⌊x + 1 / 2⌋ * c.length : Int) : ℚ)) ∧
    (Call.createPaymentIntent ⟨.ofRat 210, js "usd", true, js "A,B",
          numberToString zeroRuntime (stringToNumber (js "1.045"))⟩ ∈
        (handler zeroRuntime sampleEnv (pricedWorld (.str (js "1.045")) [])
          (boxesRequest [js "A", js "B", js "A"])).calls) :=
  ⟨⟨by decide!, (handler_amount zeroRuntime sampleEnv (sampleWorld (.ofRat 3) [])
    (boxesRequest [js "A", js "B", js "C", js "A", js "b"])
    ⟨.ofRat 900, js "usd", true, js "A,B,C", js "3"⟩ (by decide!)).1⟩, by decide!⟩

theorem handler_sold_conflict_witness :
    Call.selectBoxes [js "A", js "B"] ∈ (handler zeroRuntime sampleEnv
        (sampleWorld (.ofRat 3) [⟨js "A", js "sold"⟩, ⟨js "B", js "available"⟩])
        (boxesRequest [js "A", js "B"])).calls ∧
      (handler zeroRuntime sampleEnv
        (sampleWorld (.ofRat 3) [⟨js "A", js "sold"⟩, ⟨js "B", js "available"⟩])
        (boxesRequest [js "A", js "B"])).result = .ok ⟨409, .error (js "Already sold: A")⟩ ∧
      ∀ params, Call.createPaymentIntent params ∉ (handler zeroRuntime sampleEnv
        (sampleWorld (.ofRat 3) [⟨js "A", js "sold"⟩, ⟨js "B", js "available"⟩])
        (boxesRequest [js "A", js "B"])).calls :=
  ⟨by decide!, handler_sold_conflict zeroRuntime sampleEnv
    (sampleWorld (.ofRat 3) [⟨js "A", js "sold"⟩, ⟨js "B", js "available"⟩])
    (boxesRequest [js "A", js "B"]) [.str (js "A"), .str (js "B")] [js "A", js "B"]
    [⟨js "A", js "sold"⟩, ⟨js "B", js "available"⟩] rfl rfl rfl (by decide) (by decide!) rfl
    ⟨⟨js "A", js "sold"⟩, by decide, rfl⟩⟩

theorem mapM_toString_error (R : Runtime) (items : List Value)
    (h : ∃ v ∈ items, ∃ e, JS.toString R v = .error e) :
    ∃ e, items.mapM (JS.toString R) = .error e := by
  induction items with
  | nil => simp at h
  | cons w items ih =>
    cases hw : JS.toString R w with
    | error e => exact ⟨e, by simp only [List.mapM_cons, hw]; rfl⟩
    | ok s =>
      obtain ⟨v, hv, e, he⟩ := h
      rcases List.mem_cons.mp hv with rfl | hv
      · rw [hw] at he; cases he
      · obtain ⟨e', he'⟩ := ih ⟨v, hv, e, he⟩
        exact ⟨e', by simp only [List.mapM_cons, hw, he']; rfl⟩

/-- C3, as stated, fails: the array `[{"toString": null}]` has no element whose string form
is a single letter `A`..`Z` (its only element has no string form, `String` throws on it),
yet the handler answers 500, not 400. -/
theorem handler_invalid_boxes_counterexample :
    (∀ v ∈ [Value.obj [(js "toString", .null)]], ∀ s, JS.toString zeroRuntime v = .ok s →
        ¬ ∃ ch, s = [ch] ∧ 65 ≤ ch ∧ ch ≤ 90) ∧
      handler zeroRuntime sampleEnv (sampleWorld (.ofRat 3) [])
          ⟨js "POST", none, .obj [(js "boxes", .arr [.obj [(js "toString", .null)]])]⟩ =
        ⟨[], .ok ⟨500, .error (js "Cannot convert object to primitive value")⟩⟩ := by
  refine ⟨?_, by decide⟩
  intro v hv s hs
  simp only [List.mem_singleton] at hv
  subst hv
  have he : JS.toString zeroRuntime (.obj [(js "toString", .null)]) = .error cannotConvert := by
    decide
  rw [he] at hs
  cases hs

/-- C3, amended: a `POST` request whose `boxes` is not an array, is an empty array, or is an
array whose items all have a string form, none of them a single letter `A`..`Z` (one code
unit between 65 and 90), is answered with status 400 without any call to the database or to
the processor; a string item is its own string form.  When an item has no string form
(`String` throws on it), the answer is 500, again without any call. -/
theorem handler_invalid_boxes (R : Runtime) (env : Env) (W : World) (req : Request)
    (hm : req.method = js "POST") :
    ((arrayItems (getProp req.body (js "boxes")) = none ∨
      arrayItems (getProp req.body (js "boxes")) = some [] ∨
      ∃ items, arrayItems (getProp req.body (js "boxes")) = some items ∧
        ∀ v ∈ items, ∃ s, JS.toString R v = .ok s ∧ ¬ ∃ ch, s = [ch] ∧ 65 ≤ ch ∧ ch ≤ 90) →
      (handler R env W req).calls = [] ∧
        ∃ msg, (handler R env W req).result = .ok ⟨400, .error msg⟩) ∧
    ((∃ items, arrayItems (getProp req.body (js "boxes")) = some items ∧
        ∃ v ∈ items, ∃ e, JS.toString R v = .error e) →
      (handler R env W req).calls = [] ∧
        ∃ msg, (handler R env W req).result = .ok ⟨500, .error msg⟩) ∧
    (∀ s : JSStr, JS.toString R (.str s) = .ok s) := by
  refine ⟨?_, ?_, fun _ => rfl⟩
  · intro hb
    rcases hb with hb | hb | ⟨items, hb, hall⟩
    · simp [handler, hm, hb]
    · simp [handler, hm, hb]
    · have hall' : ∀ v ∈ items, ∃ s, JS.toString R v = .ok s ∧ isBoxId s = false := by
        intro v hv
        obtain ⟨s, hs, hnot⟩ := hall v hv
        refine ⟨s, hs, ?_⟩
        rw [← Bool.not_eq_true, isBoxId_iff]
        exact hnot
      obtain ⟨strings, hs, hp⟩ := mapM_toString_ok R (fun s => isBoxId s = false) items hall'
      have hc : clean R items = .ok [] := by
        unfold clean
        rw [hs]
        show Except.ok _ = _
        congr 1
        rw [List.filter_eq_nil_iff]
        intro s hs
        simpa using hp s ((mem_newSet _ _).mp hs)
      by_cases hl : items = []
      · simp [handler, hm, hb, hl]
      · simp [handler, hm, hb, hl, hc]
  · rintro ⟨items, hb, hthrow⟩
    have hl : items ≠ [] := by
      rintro rfl
      simp at hthrow
    obtain ⟨e, he⟩ := mapM_toString_error R items hthrow
    have hc : clean R items = .error e := by
      unfold clean
      rw [he]
      rfl
    simp [handler, hm, hb, hl, hc, serverError]

theorem handler_invalid_boxes_witness :
    ((handler zeroRuntime sampleEnv (sampleWorld (.ofRat 3) [])
        (boxesRequest [js "a1", js "!!"])).calls = [] ∧
      ∃ msg, (handler zeroRuntime sampleEnv (sampleWorld (.ofRat 3) [])
        (boxesRequest [js "a1", js "!!"])).result = .ok ⟨400, .error msg⟩) ∧
    ((handler zeroRuntime sampleEnv (sampleWorld (.ofRat 3) []) (boxesRequest [])).calls = [] ∧
      ∃ msg, (handler zeroRuntime sampleEnv (sampleWorld (.ofRat 3) [])
        (boxesRequest [])).result = .ok ⟨400, .error msg⟩) ∧
    ((handler zeroRuntime sampleEnv (sampleWorld (.ofRat 3) [])
        ⟨js "POST", none, .obj [(js "boxes", .arr [.str (js "A"),
          .obj [(js "toString", .null)]])]⟩).calls = [] ∧
      ∃ msg, (handler zeroRuntime sampleEnv (sampleWorld (.ofRat 3) [])
        ⟨js "POST", none, .obj [(js "boxes", .arr [.str (js "A"),
          .obj [(js "toString", .null)]])]⟩).result = .ok ⟨500, .error msg⟩) :=
  ⟨(handler_invalid_boxes zeroRuntime sampleEnv (sampleWorld (.ofRat 3) [])
      (boxesRequest [js "a1", js "!!"]) rfl).1
      (Or.inr (Or.inr ⟨[.str (js "a1"), .str (js "!!")], rfl, by
        intro v hv
        simp only [List.mem_cons, List.mem_singleton, List.not_mem_nil, or_false] at hv
        rcases hv with rfl | rfl
        · refine ⟨js "a1", rfl, ?_⟩
          rintro ⟨ch, h, _⟩
          rw [show js "a1" = [97, 49] by decide] at h
          simp at h
        · refine ⟨js "!!", rfl, ?_⟩
          rintro ⟨ch, h, _⟩
          rw [show js "!!" = [33, 33] by decide] at h
          simp at h⟩)),
    (handler_invalid_boxes zeroRuntime sampleEnv (sampleWorld (.ofRat 3) [])
      (boxesRequest []) rfl).1 (Or.inr (Or.inl rfl)),
    (handler_invalid_boxes zeroRuntime sampleEnv (sampleWorld (.ofRat 3) [])
      ⟨js "POST", none, .obj [(js "boxes", .arr [.str (js "A"),
        .obj [(js "toString", .null)]])]⟩ rfl).2.1
      ⟨[.str (js "A"), .obj [(js "toString", .null)]], rfl,
        .obj [(js "toString", .null)], by simp, cannotConvert, rfl⟩⟩

/-- C4: the normalised list has no duplicates, each of its elements is a string of exactly
one code unit between 65 (`A`) and 90 (`Z`), and it has at most 26 elements; on a sequence
of strings the normalisation always yields such a list. -/
theorem clean_unique_letters (R : Runtime) (boxes : List Value) (c : List JSStr)
    (h : clean R boxes = .ok c) :
    (c.Nodup ∧ (∀ b ∈ c, ∃ ch, b = [ch] ∧ 65 ≤ ch ∧ ch ≤ 90) ∧ c.length ≤ 26) ∧
      ∀ ids : List JSStr, ∃ d, clean R (ids.map Value.str) = .ok d := by
  obtain ⟨strings, _, rfl⟩ := clean_eq_ok R boxes c h
  have hn : ((newSet strings).filter isBoxId).Nodup := (newSet_nodup strings).filter _
  have hl : ∀ b ∈ (newSet strings).filter isBoxId, ∃ ch, b = [ch] ∧ 65 ≤ ch ∧ ch ≤ 90 :=
    fun b hb => (isBoxId_iff b).mp (List.mem_filter.mp hb).2
  exact ⟨⟨hn, hl, length_le_of_boxIds _ hn hl⟩, fun ids => ⟨_, clean_strings R ids⟩⟩

theorem clean_unique_letters_witness :
    clean zeroRuntime [.str (js "B"), .num (.ofRat 7), .str (js "A"), .arr [.str (js "B")],
        .str (js "zz")] = .ok [js "B", js "A"] ∧
      ([js "B", js "A"].Nodup ∧ (∀ b ∈ [js "B", js "A"], ∃ ch, b = [ch] ∧ 65 ≤ ch ∧ ch ≤ 90) ∧
        [js "B", js "A"].length ≤ 26) :=
  ⟨by decide!, (clean_unique_letters zeroRuntime [.str (js "B"), .num (.ofRat 7), .str (js "A"),
    .arr [.str (js "B")], .str (js "zz")] [js "B", js "A"] (by decide!)).1⟩

/-- C5: normalising a normalised list returns it unchanged, element for element and in
the same order; on a sequence of strings both normalisations succeed. -/
theorem clean_idempotent (R : Runtime) (boxes : List Value) (c : List JSStr)
    (h : clean R boxes = .ok c) :
    clean R (c.map Value.str) = .ok c ∧
      ∀ ids : List JSStr, ∃ d, clean R (ids.map Value.str) = .ok d ∧
        clean R (d.map Value.str) = .ok d := by
  have key : ∀ strings : List JSStr,
      clean R (((newSet strings).filter isBoxId).map Value.str) =
        .ok ((newSet strings).filter isBoxId) := by
    intro strings
    rw [clean_strings, newSet_of_nodup _ ((newSet_nodup strings).filter _), List.filter_filter]
    simp
  obtain ⟨strings, _, rfl⟩ := clean_eq_ok R boxes c h
  exact ⟨key strings, fun ids => ⟨_, clean_strings R ids, key ids⟩⟩

theorem clean_idempotent_witness :
    clean zeroRuntime [.str (js "B"), .str (js "x"), .str (js "A"), .str (js "B")] =
        .ok [js "B", js "A"] ∧
      clean zeroRuntime ([js "B", js "A"].map Value.str) = .ok [js "B", js "A"] :=
  ⟨by decide, (clean_idempotent zeroRuntime [.str (js "B"), .str (js "x"), .str (js "A"),
    .str (js "B")] [js "B", js "A"] (by decide)).1⟩

/-- C10, as stated, fails: box `Q` has no row in the registry reply, yet the handler calls
the processor for it and answers 200. -/
theorem handler_missing_row_counterexample :
    (sampleWorld (.ofRat 3) []).selectBoxes [js "Q"] = .ok ⟨some [], none⟩ ∧
      handler zeroRuntime sampleEnv (sampleWorld (.ofRat 3) []) (boxesRequest [js "Q"]) =
        ⟨[.selectPrice, .selectBoxes [js "Q"],
            .createPaymentIntent ⟨.ofRat 300, js "usd", true, js "Q", js "3"⟩],
          .ok ⟨200, .payment (js "pi_secret") (.ofRat 3)⟩⟩ :=
  ⟨rfl, by decide!⟩

/-- C10, amended: the handler does not compare the returned rows with the requested ids.
Once the registry read was made and returned rows none of which is sold, whether or not
every requested id has a row, a configured processor is called for the whole normalised
list, and the response is 200 when that call succeeds. -/
theorem handler_missing_row_not_rejected (R : Runtime) (env : Env) (W : World) (req : Request)
    (c : List JSStr) (rows : List BoxRow)
    (hread : Call.selectBoxes c ∈ (handler R env W req).calls)
    (hrows : W.selectBoxes c = .ok ⟨some rows, none⟩)
    (hnone : ∀ x ∈ rows, x.status ≠ js "sold")
    (hk : stripeClient env = .ok ()) :
    ∃ params, (handler R env W req).calls =
        [.selectPrice, .selectBoxes c, .createPaymentIntent params] ∧
      params.metadata_boxes = join (js ",") c ∧
      ∀ pi, W.createPaymentIntent params = .ok pi →
        ∃ p, (handler R env W req).result = .ok ⟨200, .payment pi.client_secret p⟩ := by
  obtain ⟨hm, items, setting, p, hb, hc, hne, hsb, hsp, hp⟩ :=
    handler_reaches_selectBoxes R env W req c hread
  have hs : sold rows = [] := (sold_eq_nil_iff rows).mpr hnone
  have hH := handler_pay R env W req items c setting p rows hm hb hc hne hsb hsp hp hrows hs hk
  refine ⟨_, by rw [hH], rfl, ?_⟩
  intro pi hpi
  refine ⟨p, ?_⟩
  rw [hH]
  simp only [hpi]

theorem handler_missing_row_not_rejected_witness :
    ∃ params, (handler zeroRuntime sampleEnv (sampleWorld (.ofRat 3) [⟨js "A", js "held"⟩])
        (boxesRequest [js "A", js "Q"])).calls =
        [.selectPrice, .selectBoxes [js "A", js "Q"], .createPaymentIntent params] ∧
      params.metadata_boxes = join (js ",") [js "A", js "Q"] ∧
      ∀ pi, (sampleWorld (.ofRat 3) [⟨js "A", js "held"⟩]).createPaymentIntent params = .ok pi →
        ∃ p, (handler zeroRuntime sampleEnv (sampleWorld (.ofRat 3) [⟨js "A", js "held"⟩])
          (boxesRequest [js "A", js "Q"])).result = .ok ⟨200, .payment pi.client_secret p⟩ :=
  handler_missing_row_not_rejected zeroRuntime sampleEnv
    (sampleWorld (.ofRat 3) [⟨js "A", js "held"⟩]) (boxesRequest [js "A", js "Q"])
    [js "A", js "Q"] [⟨js "A", js "held"⟩] (by decide!) rfl (by decide) rfl

end PaymentClaims

/-! ## The admin token check -/

section Auth

theorem requireAdmin.token_bearer (req : Request) (t : JSStr)
    (h : req.authorization = some (js "Bearer " ++ t)) : requireAdmin.token req = t := by
  have hb : js "Bearer " = [66, 101, 97, 114, 101, 114, 32] := by decide
  simp [requireAdmin.token, h, startsWith, JS.slice, hb]

theorem split_ne_nil (sep : Nat) (s : JSStr) : split sep s ≠ [] := by
  induction s with
  | nil => simp [split]
  | cons c cs ih =>
    unfold split
    split
    · simp
    · split <;> simp

theorem split_of_not_mem (sep : Nat) (s : JSStr) (h : sep ∉ s) : split sep s = [s] := by
  induction s with
  | nil => rfl
  | cons c cs ih =>
    have hc : c ≠ sep := fun hc => h (hc ▸ List.mem_cons_self c cs)
    have hcs : sep ∉ cs := fun hm => h (List.mem_cons_of_mem c hm)
    simp [split, hc, ih hcs]

theorem split_append (sep : Nat) (a b : JSStr) (h : sep ∉ a) :
    split sep (a ++ sep :: b) = a :: split sep b := by
  induction a with
  | nil => simp [split]
  | cons c cs ih =>
    have hc : c ≠ sep := fun hc => h (hc ▸ List.mem_cons_self c cs)
    have hcs : sep ∉ cs := fun hm => h (List.mem_cons_of_mem c hm)
    simp [split, hc, ih hcs]

theorem hexDigit_lt (n : Nat) (h : n < 16) : 48 ≤ hexDigit n ∧ hexDigit n ≤ 102 := by
  unfold hexDigit
  split <;> omega

theorem hexEncode_mem (bytes : List Nat) (c : Nat) (h : c ∈ hexEncode bytes) :
    48 ≤ c ∧ c ≤ 102 := by
  simp only [hexEncode, List.mem_flatMap, List.mem_cons, List.mem_singleton,
    List.not_mem_nil, or_false] at h
  obtain ⟨b, _, rfl | rfl⟩ := h
  · exact hexDigit_lt _ (Nat.mod_lt _ (by norm_num))
  · exact hexDigit_lt _ (Nat.mod_lt _ (by norm_num))

theorem hexEncode_length (bytes : List Nat) : (hexEncode bytes).length = 2 * bytes.length := by
  induction bytes with
  | nil => rfl
  | cons b bs ih =>
    simp only [hexEncode, List.flatMap_cons, List.length_append, List.length_cons,
      List.length_nil] at ih ⊢
    omega

theorem hmac_mem (R : Runtime) (data secret : JSStr) (c : Nat) (h : c ∈ hmac R data secret) :
    48 ≤ c ∧ c ≤ 102 :=
  hexEncode_mem _ c h

theorem hmac_length (R : Runtime) (data secret : JSStr) : (hmac R data secret).length = 64 := by
  simp [hmac, hexEncode_length, R.hmacSha256_length]

theorem hmac_ne_nil (R : Runtime) (data secret : JSStr) : hmac R data secret ≠ [] := by
  intro h
  have := hmac_length R data secret
  rw [h] at this
  simp at this

theorem bufferFrom_cons_ascii (c : Nat) (rest : JSStr) (h : c < 128) :
    bufferFrom (c :: rest) = c :: bufferFrom rest := by
  cases rest with
  | nil => simp [bufferFrom, h]
  | cons d rest => simp [bufferFrom, h]

theorem bufferFrom_cons_high (c : Nat) (rest : JSStr) (h : 128 ≤ c) :
    ∃ b bs, bufferFrom (c :: rest) = b :: bs ∧ 128 ≤ b := by
  have h1 : ¬ c < 128 := by omega
  cases rest with
  | nil =>
    simp only [bufferFrom, h1, if_false]
    split
    · exact ⟨_, _, rfl, by omega⟩
    · split
      · exact ⟨_, _, rfl, by norm_num⟩
      · exact ⟨_, _, rfl, by omega⟩
  | cons d rest =>
    simp only [bufferFrom, h1, if_false]
    split
    · exact ⟨_, _, rfl, by omega⟩
    · split
      · exact ⟨_, _, rfl, by omega⟩
      · split
        · exact ⟨_, _, rfl, by norm_num⟩
        · exact ⟨_, _, rfl, by omega⟩

/-- A string with the same UTF-8 bytes as an ASCII string is that string. -/
theorem bufferFrom_eq_ascii (b : JSStr) (hb : ∀ c ∈ b, c < 128) :
    ∀ a : JSStr, bufferFrom a = bufferFrom b → a = b := by
  induction b with
  | nil =>
    intro a h
    cases a with
    | nil => rfl
    | cons x xs =>
      by_cases hx : x < 128
      · rw [bufferFrom_cons_ascii x xs hx] at h
        simp [bufferFrom] at h
      · obtain ⟨y, ys, hy, _⟩ := bufferFrom_cons_high x xs (by omega)
        rw [hy] at h
        simp [bufferFrom] at h
  | cons c cs ih =>
    intro a h
    have hc : c < 128 := hb c (List.mem_cons_self c cs)
    rw [bufferFrom_cons_ascii c cs hc] at h
    cases a with
    | nil => simp [bufferFrom] at h
    | cons x xs =>
      by_cases hx : x < 128
      · rw [bufferFrom_cons_ascii x xs hx] at h
        simp only [List.cons.injEq] at h
        rw [h.1, ih (fun d hd => hb d (List.mem_cons_of_mem c hd)) xs h.2]
      · obtain ⟨y, ys, hy, hy2⟩ := bufferFrom_cons_high x xs (by omega)
        rw [hy] at h
        simp only [List.cons.injEq] at h
        omega

theorem timingSafeEqual_eq_true (a b : List Nat) (h : timingSafeEqual a b = .ok true) : a = b := by
  unfold timingSafeEqual at h
  split at h
  · cases h
  · simpa using h

theorem timingSafeEqual_self (a : List Nat) : timingSafeEqual a a = .ok true := by
  simp [timingSafeEqual]

theorem requireAdmin_ok (R : Runtime) (env : Env) (req : Request) (now : Int) :
    ∃ b, requireAdmin R env req now = .ok b := by
  unfold requireAdmin
  split
  · exact ⟨_, rfl⟩
  split
  · exact ⟨_, rfl⟩
  dsimp only
  split
  · exact ⟨_, rfl⟩
  split
  · exact ⟨_, rfl⟩
  split
  · exact ⟨_, rfl⟩
  split <;> exact ⟨_, rfl⟩

/-- The exact acceptance condition of `requireAdmin`. -/
theorem requireAdmin_eq_true_iff (R : Runtime) (env : Env) (req : Request) (now : Int) :
    requireAdmin R env req now = .ok true ↔
      ∃ secret ts sig rest, env.ADMIN_PASSWORD = some secret ∧ secret ≠ [] ∧
        split 46 (requireAdmin.token req) = ts :: sig :: rest ∧ ts ≠ [] ∧ sig ≠ [] ∧
        (requireAdmin.ageMs now ts).isFinite = true ∧
        (requireAdmin.ageMs now ts).gt (.ofRat (12 * 60 * 60 * 1000)) = false ∧
        sig = hmac R ts secret := by
  constructor
  · intro h
    unfold requireAdmin at h
    split at h
    · cases h
    rename_i secret hsec
    split at h
    · cases h
    rename_i hne
    simp only at h
    split at h
    · cases h
    rename_i sig hsig
    split at h
    · cases h
    rename_i hts
    split at h
    · cases h
    rename_i hage
    split at h
    swap
    · cases h
    rename_i b hb
    cases h
    have hbuf := timingSafeEqual_eq_true _ _ hb
    have hEq := bufferFrom_eq_ascii (hmac R _ secret)
      (fun c hc => by have := hmac_mem R _ secret c hc; omega) sig hbuf
    match hf : split 46 (requireAdmin.token req), hsig, hts, hage, hEq with
    | [], hsig, _, _, _ => simp [hf] at hsig
    | [_], hsig, _, _, _ => simp [hf] at hsig
    | ts :: sig' :: rest, hsig, hts, hage, hEq =>
      simp only [hf, List.tail_cons, List.head?_cons, Option.some.injEq] at hsig
      subst hsig
      simp only [hf, List.headD_cons, not_or] at hts hage hEq
      simp only [Bool.or_eq_true, Bool.not_eq_true', not_or, Bool.not_eq_false,
        Bool.not_eq_true] at hage
      exact ⟨secret, ts, sig', rest, hsec, hne, rfl, hts.1, hts.2, hage.1, hage.2, hEq⟩
  · rintro ⟨secret, ts, sig, rest, hsec, hne, hf, hts, hsig, hfin, hgt, rfl⟩
    simp [requireAdmin, hsec, hne, hf, hts, hsig, hfin, hgt, timingSafeEqual_self]

end Auth

/-! ## Numerals of integers and their reading back -/

section Numerals

theorem digitValue_digit (n : Nat) (h : n < 10) : digitValue (48 + n) = some n := by
  unfold digitValue
  rw [if_pos (by omega)]
  congr 1
  omega

theorem readDigits_decimalDigits (fuel : Nat) :
    ∀ n acc, n < fuel →
      readDigits 10 0 (decimalDigits fuel n acc) = readDigits 10 n acc := by
  induction fuel with
  | zero => intro n acc h; omega
  | succ fuel ih =>
    intro n acc h
    unfold decimalDigits
    split
    · rename_i hn
      simp [readDigits, digitValue_digit n hn, hn]
    · rename_i hn
      rw [ih (n / 10) _ (by omega)]
      have hd : n % 10 < 10 := Nat.mod_lt _ (by norm_num)
      simp only [readDigits, digitValue_digit _ hd, hd, if_true]
      congr 1
      omega

theorem decimalDigits_mem (fuel : Nat) :
    ∀ n acc c, c ∈ decimalDigits fuel n acc → (48 ≤ c ∧ c ≤ 57) ∨ c ∈ acc := by
  induction fuel with
  | zero => intro n acc c h; exact Or.inr h
  | succ fuel ih =>
    intro n acc c h
    unfold decimalDigits at h
    split at h
    · rcases List.mem_cons.mp h with rfl | h
      · exact Or.inl (by omega)
      · exact Or.inr h
    · rcases ih _ _ c h with h | h
      · exact Or.inl h
      · rcases List.mem_cons.mp h with rfl | h
        · exact Or.inl (by omega)
        · exact Or.inr h

theorem decimalDigits_ne_nil (fuel : Nat) :
    ∀ n acc, 0 < fuel ∨ acc ≠ [] → decimalDigits fuel n acc ≠ [] := by
  induction fuel with
  | zero =>
    intro n acc h
    rcases h with h | h
    · omega
    · exact h
  | succ fuel ih =>
    intro n acc _
    unfold decimalDigits
    split
    · simp
    · exact ih _ _ (Or.inr (by simp))

theorem natToString_mem (n c : Nat) (h : c ∈ natToString n) : 48 ≤ c ∧ c ≤ 57 := by
  rcases decimalDigits_mem _ _ _ c h with h | h
  · exact h
  · simp at h

theorem natToString_ne_nil (n : Nat) : natToString n ≠ [] :=
  decimalDigits_ne_nil _ _ _ (Or.inl (Nat.succ_pos n))

theorem readNat_natToString (n : Nat) : readNat 10 (natToString n) = some n := by
  unfold readNat
  rw [if_neg (natToString_ne_nil n)]
  unfold natToString
  rw [readDigits_decimalDigits _ _ _ (Nat.lt_succ_self n)]
  rfl

theorem dropWhile_of_all_false (p : Nat → Bool) (l : JSStr) (h : ∀ c ∈ l, p c = false) :
    l.dropWhile p = l := by
  cases l with
  | nil => rfl
  | cons c cs => simp [List.dropWhile_cons, h c (List.mem_cons_self c cs)]

theorem trim_of_no_space (s : JSStr) (h : ∀ c ∈ s, isStrWhiteSpace c = false) : trim s = s := by
  unfold trim
  rw [dropWhile_of_all_false _ s h,
    dropWhile_of_all_false _ s.reverse (fun c hc => h c (List.mem_reverse.mp hc)),
    List.reverse_reverse]

theorem isStrWhiteSpace_of_graphic (c : Nat) (h : 33 ≤ c ∧ c ≤ 126) :
    isStrWhiteSpace c = false := by
  have h1 : ¬ (8192 ≤ c) := by omega
  simp [isStrWhiteSpace, h1]
  omega

/-- Reading back the numeral of a natural number. -/
theorem readUnsignedDecimal_natToString (n : Nat) :
    readUnsignedDecimal (natToString n) = JSNum.ofRat n := by
  have hd := natToString_mem n
  have hInf : natToString n ≠ js "Infinity" := by
    intro h
    have := hd 73 (by rw [h]; decide)
    omega
  have hE : ∀ c ∈ natToString n, (!(decide (c = 101) || decide (c = 69))) = true := by
    intro c hc
    have := hd c hc
    simp
    omega
  have hDot : ∀ c ∈ natToString n, decide (c ≠ 46) = true := by
    intro c hc
    have := hd c hc
    simp
    omega
  unfold readUnsignedDecimal
  rw [if_neg hInf]
  simp only [List.takeWhile_eq_self_iff.mpr hE, List.dropWhile_eq_nil_iff.mpr hE]
  unfold readMantissa
  simp only [List.takeWhile_eq_self_iff.mpr hDot, List.dropWhile_eq_nil_iff.mpr hDot,
    readNat_natToString, Option.map_some']

theorem readNumeric_natToString (n : Nat) :
    readNumeric (natToString n) = JSNum.ofRat n := by
  rw [← readUnsignedDecimal_natToString]
  have hd := natToString_mem n
  unfold readNumeric
  split
  · rename_i h; have := hd 120 (by rw [h]; simp); omega
  · rename_i h; have := hd 88 (by rw [h]; simp); omega
  · rename_i h; have := hd 111 (by rw [h]; simp); omega
  · rename_i h; have := hd 79 (by rw [h]; simp); omega
  · rename_i h; have := hd 98 (by rw [h]; simp); omega
  · rename_i h; have := hd 66 (by rw [h]; simp); omega
  · rename_i h; have := hd 43 (by rw [h]; simp); omega
  · rename_i h; have := hd 45 (by rw [h]; simp); omega
  · rfl

theorem intToString_mem (T : Int) (c : Nat) (h : c ∈ intToString T) :
    c = 45 ∨ (48 ≤ c ∧ c ≤ 57) := by
  cases T with
  | ofNat n => exact Or.inr (natToString_mem n c h)
  | negSucc n =>
    rcases List.mem_cons.mp h with rfl | h
    · exact Or.inl rfl
    · exact Or.inr (natToString_mem _ c h)

theorem intToString_ne_nil (T : Int) : intToString T ≠ [] := by
  cases T with
  | ofNat n => exact natToString_ne_nil n
  | negSucc n => simp [intToString]

/-- Reading back the numeral of an integer of magnitude at most `2^53`. -/
theorem stringToNumber_intToString (T : Int) (h : T.natAbs ≤ 2 ^ 53) :
    stringToNumber (intToString T) = JSNum.ofRat T := by
  have hsp : ∀ c ∈ intToString T, isStrWhiteSpace c = false := by
    intro c hc
    apply isStrWhiteSpace_of_graphic
    rcases intToString_mem T c hc with rfl | hc <;> omega
  unfold stringToNumber
  rw [trim_of_no_space _ hsp, if_neg (intToString_ne_nil T)]
  cases T with
  | ofNat n =>
    simp only [intToString, readNumeric_natToString]
    rfl
  | negSucc n =>
    have h1 : readNumeric (45 :: natToString (n + 1)) =
        (readUnsignedDecimal (natToString (n + 1))).neg := by
      unfold readNumeric
      rfl
    have hn : n + 1 ≤ 2 ^ 53 := by simpa using h
    have hraw := JSNum.ofRat_natCast (n + 1) hn
    simp only [intToString, h1, readUnsignedDecimal_natToString]
    apply JSNum.ext_raw
    have hneg : ((Int.negSucc n : Int) : ℚ) = -((n + 1 : Nat) : ℚ) := by
      rw [Int.cast_negSucc]
    have hne : -((n + 1 : Nat) : ℚ) ≠ 0 := by
      have : (0 : ℚ) < ((n + 1 : Nat) : ℚ) := by exact_mod_cast Nat.succ_pos n
      linarith
    have hstep : (JSNum.ofRat ((n + 1 : Nat) : ℚ)).neg =
        JSNum.nearest true (-((n + 1 : Nat) : ℚ)) := by
      unfold JSNum.neg
      rw [hraw]
    rw [hstep, hneg, JSNum.ofRat, JSNum.nearest_raw, JSNum.nearest_raw]
    exact roundBinary64_flag true false _ hne

theorem numberToString_int (R : Runtime) (T : Int) (h : T.natAbs ≤ 2 ^ 53) :
    numberToString R (JSNum.ofRat T) = intToString T := by
  have hraw := JSNum.ofRat_intCast T h
  unfold numberToString
  rw [hraw]
  show (if ((T : ℚ)).den = 1 ∧ ((T : ℚ)).num.natAbs ≤ 2 ^ 53 then intToString ((T : ℚ)).num
    else R.shortestNumeral T) = intToString T
  rw [if_pos ⟨Rat.intCast_den T, by rw [Rat.intCast_num]; exact h⟩, Rat.intCast_num]

end Numerals

/-! ## Claims about `lib/auth.js` -/

section AuthClaims

theorem ageMs_intToString (now T : Int) (hT : T.natAbs ≤ 2 ^ 53) (hnow : now.natAbs ≤ 2 ^ 53) :
    (requireAdmin.ageMs now (intToString T)).raw =
      roundBinary64 (decide ((now : ℚ) < 0) && !decide ((T : ℚ) < 0))
        (((now - T : Int) : ℚ)) := by
  have h1 := JSNum.ofRat_intCast now hnow
  have h2 := JSNum.ofRat_intCast T hT
  rw [requireAdmin.ageMs, stringToNumber_intToString T hT,
    JSNum.sub_raw_of_finite _ _ (JSNum.isFinite_of_raw_fin _ _ h1)
      (JSNum.isFinite_of_raw_fin _ _ h2), h1, h2]
  simp [RawNum.value, RawNum.negative]

theorem twelveHours_raw : (JSNum.ofRat (12 * 60 * 60 * 1000)).raw = .fin 43200000 := by
  have := JSNum.ofRat_natCast 43200000 (by norm_num)
  norm_num at this ⊢
  exact this

theorem split_issued (R : Runtime) (secret : JSStr) (T : Int) :
    split 46 (intToString T ++ js "." ++ hmac R (intToString T) secret) =
      [intToString T, hmac R (intToString T) secret] := by
  have hdot : js "." = [46] := by decide
  have h1 : 46 ∉ intToString T := by
    intro h
    rcases intToString_mem T 46 h with h | h <;> omega
  have h2 : 46 ∉ hmac R (intToString T) secret := by
    intro h
    have := hmac_mem R _ _ 46 h
    omega
  rw [hdot, List.append_assoc, List.singleton_append, split_append 46 _ _ h1,
    split_of_not_mem 46 _ h2]

/-- C7: the token issued at time `T` under a non-empty secret, presented as
`Bearer <token>` under the same secret, is accepted at every time `now` with
`0 ≤ now - T ≤ 12 h` and rejected at every time `now` with `now - T > 12 h`.  Times are
integer milliseconds of magnitude at most `2^53`, which holds for every value `Date.now()`
can return (at most `8.64 · 10^15`). -/
theorem issued_token_window (R : Runtime) (env : Env) (secret : JSStr) (T : Int)
    (hsec : env.ADMIN_PASSWORD = some secret) (hne : secret ≠ [])
    (hT : T.natAbs ≤ 2 ^ 53) :
    ∃ token, issueAdminToken R env T = .ok token ∧
      ∀ (req : Request) (now : Int), now.natAbs ≤ 2 ^ 53 →
        req.authorization = some (js "Bearer " ++ token) →
        (0 ≤ now - T → now - T ≤ 12 * 60 * 60 * 1000 →
          requireAdmin R env req now = .ok true) ∧
        (12 * 60 * 60 * 1000 < now - T → requireAdmin R env req now = .ok false) := by
  refine ⟨intToString T ++ js "." ++ hmac R (intToString T) secret, ?_, ?_⟩
  · simp [issueAdminToken, hsec, hne, numberToString_int R T hT]
  intro req now hnow hreq
  have htok := requireAdmin.token_bearer req _ hreq
  have hsplit := split_issued R secret T
  have hage := ageMs_intToString now T hT hnow
  have h12f : (JSNum.ofRat (12 * 60 * 60 * 1000)).isFinite = true :=
    JSNum.isFinite_of_raw_fin _ _ twelveHours_raw
  constructor
  · intro h0 h12
    have hd : (now - T).natAbs ≤ 2 ^ 53 := by omega
    obtain ⟨hfin, hval⟩ := JSNum.finite_of_raw_int _ _ _ hd hage
    rw [requireAdmin_eq_true_iff]
    refine ⟨secret, intToString T, hmac R (intToString T) secret, [], hsec, hne, ?_,
      intToString_ne_nil T, hmac_ne_nil R _ _, hfin, ?_, rfl⟩
    · rw [htok, hsplit]
    · rw [JSNum.gt_of_finite _ _ hfin h12f, twelveHours_raw, hval,
        show (RawNum.fin 43200000).value = 43200000 from rfl]
      simp only [decide_eq_false_iff_not, not_lt]
      exact_mod_cast h12
  · intro h12
    obtain ⟨b, hb⟩ := requireAdmin_ok R env req now
    cases b with
    | false => exact hb
    | true =>
      exfalso
      obtain ⟨secret', ts, sig, rest, _, _, hf, _, _, hfin, hgt, _⟩ :=
        (requireAdmin_eq_true_iff R env req now).mp hb
      rw [htok, hsplit] at hf
      simp only [List.cons.injEq] at hf
      obtain ⟨rfl, _⟩ := hf
      rw [JSNum.gt_of_finite _ _ hfin h12f, twelveHours_raw,
        show (RawNum.fin 43200000).value = 43200000 from rfl] at hgt
      simp only [decide_eq_false_iff_not, not_lt] at hgt
      by_cases hd : (now - T).natAbs ≤ 2 ^ 53
      · obtain ⟨_, hval⟩ := JSNum.finite_of_raw_int _ _ _ hd hage
        rw [hval] at hgt
        have : ((now - T : Int) : ℚ) ≤ ((43200000 : Int) : ℚ) := by simpa using hgt
        have := Int.cast_le.mp this
        omega
      · have hbig : (2 : ℚ) ^ 53 ≤ ((now - T : Int) : ℚ) := by
          have : (2 : Int) ^ 53 ≤ now - T := by omega
          exact_mod_cast this
        rcases roundBinary64_ge (decide ((now : ℚ) < 0) && !decide ((T : ℚ) < 0)) _ hbig
          with hinf | ⟨r, hr, hr53⟩
        · rw [hinf] at hage
          simp [JSNum.isFinite, hage] at hfin
        · rw [hr] at hage
          rw [hage, show (RawNum.fin r).value = r from rfl] at hgt
          linarith [show (43200000 : ℚ) < 2 ^ 53 by norm_num]

theorem issued_token_window_witness :
    ∃ token, issueAdminToken zeroRuntime sampleEnv 1700000000000 = .ok token ∧
      ∀ (req : Request) (now : Int), now.natAbs ≤ 2 ^ 53 →
        req.authorization = some (js "Bearer " ++ token) →
        (0 ≤ now - 1700000000000 → now - 1700000000000 ≤ 12 * 60 * 60 * 1000 →
          requireAdmin zeroRuntime sampleEnv req now = .ok true) ∧
        (12 * 60 * 60 * 1000 < now - 1700000000000 →
          requireAdmin zeroRuntime sampleEnv req now = .ok false) :=
  issued_token_window zeroRuntime sampleEnv (js "hunter2") 1700000000000 rfl (by decide)
    (by decide)

/-- C8: `requireAdmin` never throws; it returns true only if the second dot-separated field
`sig` of the token equals the lower-case hexadecimal HMAC-SHA256 of the first field `ts`
under the secret; a token `ts.sig` whose `sig` differs from it, in content or in length, is
answered with false. -/
theorem requireAdmin_signature (R : Runtime) (env : Env) (req : Request) (now : Int) :
    (∃ b, requireAdmin R env req now = .ok b) ∧
    (requireAdmin R env req now = .ok true →
      ∃ secret ts sig rest, env.ADMIN_PASSWORD = some secret ∧
        split 46 (requireAdmin.token req) = ts :: sig :: rest ∧ sig = hmac R ts secret) ∧
    (∀ secret ts sig, env.ADMIN_PASSWORD = some secret → 46 ∉ ts → 46 ∉ sig →
      req.authorization = some (js "Bearer " ++ (ts ++ js "." ++ sig)) →
      sig ≠ hmac R ts secret → requireAdmin R env req now = .ok false) := by
  refine ⟨requireAdmin_ok R env req now, ?_, ?_⟩
  · intro h
    obtain ⟨secret, ts, sig, rest, hsec, _, hf, _, _, _, _, hsig⟩ :=
      (requireAdmin_eq_true_iff R env req now).mp h
    exact ⟨secret, ts, sig, rest, hsec, hf, hsig⟩
  · intro secret ts sig hsec hts hsig hreq hdiff
    obtain ⟨b, hb⟩ := requireAdmin_ok R env req now
    cases b with
    | false => exact hb
    | true =>
      exfalso
      obtain ⟨secret', ts', sig', rest, hsec', _, hf, _, _, _, _, hEq⟩ :=
        (requireAdmin_eq_true_iff R env req now).mp hb
      have hdot : js "." = [46] := by decide
      rw [requireAdmin.token_bearer req _ hreq, hdot, List.append_assoc, List.singleton_append,
        split_append 46 _ _ hts, split_of_not_mem 46 _ hsig] at hf
      simp only [List.cons.injEq] at hf
      obtain ⟨rfl, rfl, _⟩ := hf
      rw [hsec] at hsec'
      cases hsec'
      exact hdiff hEq

theorem requireAdmin_signature_witness :
    requireAdmin zeroRuntime sampleEnv ⟨js "GET", some (js
      "Bearer 1000.0000000000000000000000000000000000000000000000000000000000000001"),
      .undefined⟩ 2000 = .ok false :=
  (requireAdmin_signature zeroRuntime sampleEnv ⟨js "GET", some (js
      "Bearer 1000.0000000000000000000000000000000000000000000000000000000000000001"),
      .undefined⟩ 2000).2.2 (js "hunter2") (js "1000")
    (js "0000000000000000000000000000000000000000000000000000000000000001") rfl
    (by decide) (by decide) (by decide) (by decide)

/-- C9, as stated, fails twice.  A token of three dot-separated fields is accepted, its
third field being ignored; and a token whose issue time 2000 lies after the current time
1000, so that the age is the negative number -1000, is accepted.  (The digest of
`zeroRuntime` is all zero; in any runtime the same holds with that runtime's digest, by
`requireAdmin_eq_true_iff`.) -/
theorem requireAdmin_rejects_counterexample :
    (split 46 (js
        "1000.0000000000000000000000000000000000000000000000000000000000000000.x")).length = 3 ∧
      requireAdmin zeroRuntime sampleEnv ⟨js "GET", some (js
        "Bearer 1000.0000000000000000000000000000000000000000000000000000000000000000.x"),
        .undefined⟩ 2000 = .ok true ∧
      (requireAdmin.ageMs 1000 (js "2000")).raw = .fin (-1000) ∧
      requireAdmin zeroRuntime sampleEnv ⟨js "GET", some (js
        "Bearer 2000.0000000000000000000000000000000000000000000000000000000000000000"),
        .undefined⟩ 1000 = .ok true := by
  decide!

/-- C9, amended: `requireAdmin` returns false whenever the token has fewer than two
dot-separated fields, or its first or its second field is empty, or the age
`now - Number(ts)` is not finite, or that age exceeds twelve hours. -/
theorem requireAdmin_rejects (R : Runtime) (env : Env) (req : Request) (now : Int)
    (h : (split 46 (requireAdmin.token req)).length < 2 ∨
      ∃ ts sig rest, split 46 (requireAdmin.token req) = ts :: sig :: rest ∧
        (ts = [] ∨ sig = [] ∨ (requireAdmin.ageMs now ts).isFinite = false ∨
          (requireAdmin.ageMs now ts).gt (.ofRat (12 * 60 * 60 * 1000)) = true)) :
    requireAdmin R env req now = .ok false := by
  obtain ⟨b, hb⟩ := requireAdmin_ok R env req now
  cases b with
  | false => exact hb
  | true =>
    exfalso
    obtain ⟨secret, ts, sig, rest, _, _, hf, hts, hsig, hfin, hgt, _⟩ :=
      (requireAdmin_eq_true_iff R env req now).mp hb
    rcases h with h | ⟨ts', sig', rest', hf', h⟩
    · rw [hf] at h
      simp only [List.length_cons] at h
      omega
    · rw [hf] at hf'
      simp only [List.cons.injEq] at hf'
      obtain ⟨rfl, rfl, _⟩ := hf'
      rcases h with h | h | h | h
      · exact hts h
      · exact hsig h
      · rw [hfin] at h; cases h
      · rw [hgt] at h; cases h

theorem requireAdmin_rejects_witness :
    requireAdmin zeroRuntime sampleEnv ⟨js "GET", some (js
        "Bearer 1000.0000000000000000000000000000000000000000000000000000000000000000"),
        .undefined⟩ 43201001 = .ok false ∧
      requireAdmin zeroRuntime sampleEnv ⟨js "GET", some (js "Bearer 1000"),
        .undefined⟩ 2000 = .ok false :=
  ⟨requireAdmin_rejects zeroRuntime sampleEnv _ 43201001
      (Or.inr ⟨js "1000", js "0000000000000000000000000000000000000000000000000000000000000000",
        [], by decide, Or.inr (Or.inr (Or.inr (by decide!)))⟩),
    requireAdmin_rejects zeroRuntime sampleEnv _ 2000 (Or.inl (by decide))⟩

/-- The age is computed in binary64: the numeral `16999999999999999999999999e-13` reads
as 1700000000000, so that at time 1700043200000 the age is exactly twelve hours and the
token, validly signed, is accepted. -/
theorem requireAdmin_rounded_age_example :
    requireAdmin.ageMs 1700043200000 (js "16999999999999999999999999e-13") =
        JSNum.ofRat 43200000 ∧
      requireAdmin zeroRuntime sampleEnv ⟨js "GET", some (js ("Bearer 16999999999999999999999999e-13"
        ++ ".0000000000000000000000000000000000000000000000000000000000000000")),
        .undefined⟩ 1700043200000 = .ok true := by
  decide!

end AuthClaims

/-! ## Claims about `api/admin-set-price.js` -/

section PriceClaims

theorem zero_raw : (JSNum.ofRat 0).raw = .fin 0 := by
  simpa using JSNum.ofRat_natCast 0 (by norm_num)

theorem maxPrice_raw : (JSNum.ofRat 9999).raw = .fin 9999 := by
  simpa using JSNum.ofRat_natCast 9999 (by norm_num)

theorem priceGuard_eq_false_iff (n : JSNum) :
    (!n.isFinite || n.le (.ofRat 0) || n.gt (.ofRat 9999)) = false ↔
      ∃ q : ℚ, n.raw = .fin q ∧ 0 < q ∧ q ≤ 9999 := by
  have h0 := JSNum.isFinite_of_raw_fin _ _ zero_raw
  have h9 := JSNum.isFinite_of_raw_fin _ _ maxPrice_raw
  cases hr : n.raw with
  | nan => simp [JSNum.isFinite, hr]
  | inf s => simp [JSNum.isFinite, hr]
  | negZero =>
    have hf : n.isFinite = true := by simp [JSNum.isFinite, hr]
    rw [JSNum.le_of_finite n _ hf h0, hr, zero_raw]
    simp [RawNum.value]
  | fin q =>
    have hf : n.isFinite = true := JSNum.isFinite_of_raw_fin n q hr
    rw [JSNum.le_of_finite n _ hf h0, JSNum.gt_of_finite n _ hf h9, hr, zero_raw, maxPrice_raw,
      hf]
    simp [RawNum.value]

/-- Both outcomes of the price guard for an authenticated request and a working store. -/
theorem setPrice_outcome (R : Runtime) (env : Env) (W : World) (req : Request)
    (now stamp : Int) (n : JSNum)
    (hm : req.method = js "POST") (hauth : requireAdmin R env req now = .ok true)
    (hn : toNumber R (getProp req.body (js "priceUsd")) = .ok n)
    (hsb : W.supabaseAdmin = .ok ()) (hup : W.upsertPrice n stamp = .ok none) :
    ((∃ q : ℚ, n.raw = .fin q ∧ 0 < q ∧ q ≤ 9999) →
      AdminSetPrice.handler R env W req now stamp =
        ⟨[.upsertPrice n stamp], .ok ⟨200, .priceSet n⟩⟩) ∧
    (¬ (∃ q : ℚ, n.raw = .fin q ∧ 0 < q ∧ q ≤ 9999) →
      AdminSetPrice.handler R env W req now stamp =
        ⟨[], .ok ⟨400, .error (js "Invalid priceUsd")⟩⟩) := by
  constructor
  · intro hv
    have hg := (priceGuard_eq_false_iff n).mpr hv
    simp only [Bool.or_eq_false_iff, Bool.not_eq_false'] at hg
    simp [AdminSetPrice.handler, hm, hauth, hn, hg.1.1, hg.1.2, hg.2, hsb, hup]
  · intro hv
    have hg : (!n.isFinite || n.le (.ofRat 0) || n.gt (.ofRat 9999)) = true := by
      rw [← Bool.not_eq_false, priceGuard_eq_false_iff]
      exact hv
    simp only [Bool.or_eq_true, Bool.not_eq_true'] at hg
    simp [AdminSetPrice.handler, hm, hauth, hn, hg]

/-- C6, as stated, fails: for the authenticated request with body
`{"priceUsd": {"toString": null}}` the conversion `Number(priceUsd)` throws before the
guard and outside the `try`; the handler sends no response at all, so no 400. -/
theorem setPrice_range_counterexample :
    requireAdmin zeroRuntime sampleEnv (priceRequest (.obj [(js "toString", .null)])) 2000 =
        .ok true ∧
      AdminSetPrice.handler zeroRuntime sampleEnv (sampleWorld (.ofRat 3) [])
          (priceRequest (.obj [(js "toString", .null)])) 2000 2001 =
        ⟨[], .error cannotConvert⟩ := by
  decide!

/-- C6, amended: for an authenticated `POST` request whose price input is converted by
`Number` to the number `n`, and a store that does not fail, the handler upserts `n` and
answers 200 with `{ ok: true, priceUsd: n }` if and only if `n` is finite with
`0 < n ≤ 9999`; otherwise it answers 400 without any call to the store.  The conversion
leaves a number as it is and reads a string as a numeral, rounded to binary64: the string
`9999.0000000000001` is 9999 and `1e-400` is 0. -/
theorem setPrice_range (R : Runtime) (env : Env) (W : World) (req : Request)
    (now stamp : Int)
    (hm : req.method = js "POST") (hauth : requireAdmin R env req now = .ok true)
    (hsb : W.supabaseAdmin = .ok ()) :
    (∀ n, toNumber R (getProp req.body (js "priceUsd")) = .ok n →
      W.upsertPrice n stamp = .ok none →
      (AdminSetPrice.handler R env W req now stamp =
          ⟨[.upsertPrice n stamp], .ok ⟨200, .priceSet n⟩⟩ ↔
        ∃ q : ℚ, n.raw = .fin q ∧ 0 < q ∧ q ≤ 9999) ∧
      (¬ (∃ q : ℚ, n.raw = .fin q ∧ 0 < q ∧ q ≤ 9999) →
        AdminSetPrice.handler R env W req now stamp =
          ⟨[], .ok ⟨400, .error (js "Invalid priceUsd")⟩⟩ ∧
        ∀ v t, Call.upsertPrice v t ∉ (AdminSetPrice.handler R env W req now stamp).calls)) ∧
    (∀ p : JSNum, toNumber R (.num p) = .ok p) ∧
    (∀ s : JSStr, toNumber R (.str s) = .ok (stringToNumber s)) ∧
    (stringToNumber (js "9999.0000000000001") = .ofRat 9999 ∧
      stringToNumber (js "1e-400") = .ofRat 0 ∧
      stringToNumber (js "2.50") = .ofRat (5 / 2) ∧
      stringToNumber (js "12abc") = .nan ∧
      toNumber R .undefined = .ok .nan ∧ toNumber R .null = .ok (.ofRat 0)) := by
  refine ⟨?_, fun _ => rfl, fun _ => rfl, by decide!, by decide!, by decide!, by decide!,
    rfl, rfl⟩
  intro n hn hup
  obtain ⟨hyes, hno⟩ := setPrice_outcome R env W req now stamp n hm hauth hn hsb hup
  refine ⟨⟨?_, hyes⟩, ?_⟩
  · intro h
    by_contra hv
    rw [hno hv] at h
    simp at h
  · intro hv
    refine ⟨hno hv, ?_⟩
    intro v t
    rw [hno hv]
    simp

theorem setPrice_range_witness :
    AdminSetPrice.handler zeroRuntime sampleEnv (sampleWorld (.ofRat 3) [])
        (priceRequest (.num (.ofRat (5 / 2)))) 2000 2001 =
        ⟨[.upsertPrice (.ofRat (5 / 2)) 2001], .ok ⟨200, .priceSet (.ofRat (5 / 2))⟩⟩ ∧
      AdminSetPrice.handler zeroRuntime sampleEnv (sampleWorld (.ofRat 3) [])
        (priceRequest (.str (js "9999.0000000000001"))) 2000 2001 =
        ⟨[.upsertPrice (.ofRat 9999) 2001], .ok ⟨200, .priceSet (.ofRat 9999)⟩⟩ ∧
      AdminSetPrice.handler zeroRuntime sampleEnv (sampleWorld (.ofRat 3) [])
        (priceRequest (.str (js "1e-400"))) 2000 2001 =
        ⟨[], .ok ⟨400, .error (js "Invalid priceUsd")⟩⟩ ∧
      AdminSetPrice.handler zeroRuntime sampleEnv (sampleWorld (.ofRat 3) [])
        (priceRequest (.str (js "1e999"))) 2000 2001 =
        ⟨[], .ok ⟨400, .error (js "Invalid priceUsd")⟩⟩ :=
  ⟨((setPrice_range zeroRuntime sampleEnv (sampleWorld (.ofRat 3) [])
      (priceRequest (.num (.ofRat (5 / 2)))) 2000 2001 rfl (by decide!) rfl).1
      (.ofRat (5 / 2)) rfl rfl).1.mpr ⟨5 / 2, by decide!, by norm_num, by norm_num⟩,
    ((setPrice_range zeroRuntime sampleEnv (sampleWorld (.ofRat 3) [])
      (priceRequest (.str (js "9999.0000000000001"))) 2000 2001 rfl (by decide!) rfl).1
      (.ofRat 9999) (by decide!) rfl).1.mpr ⟨9999, by decide!, by norm_num, by norm_num⟩,
    (((setPrice_range zeroRuntime sampleEnv (sampleWorld (.ofRat 3) [])
      (priceRequest (.str (js "1e-400"))) 2000 2001 rfl (by decide!) rfl).1
      (.ofRat 0) (by decide!) rfl).2 (by
        rintro ⟨q, hq, hpos, _⟩
        rw [zero_raw] at hq
        cases hq
        exact absurd hpos (lt_irrefl 0))).1,
    (((setPrice_range zeroRuntime sampleEnv (sampleWorld (.ofRat 3) [])
      (priceRequest (.str (js "1e999"))) 2000 2001 rfl (by decide!) rfl).1
      (.inf false) (by decide!) rfl).2 (by rintro ⟨q, hq, _⟩; cases hq)).1⟩

end PriceClaims

end ChancyBoxes
